import Mathlib

/-!
Verification of the CrystFEL scaling / post-refinement / merging engine
and its rational-number library.

The definitions below are shallow embeddings of the C sources:

* `rational.c`          — exact rational arithmetic (`Rational`, `squish`,
  `rtnl`, `rtnl_mul`, `rtnl_div`, `rtnl_add`, `rtnl_sub`, `rtnl_abs`,
  `rtnl_cmp`) and the rational matrix solver (`rtnl_mtx_mult`,
  `rtnl_mtx_solve`).
* `hrs-scaling.c`       — scaling (`run_scale_job`), merging
  (`run_merge_job`, `lsq_intensities`), error estimation (`run_esd_job`,
  `calculate_esds`), outlier rejection (`reject_outliers`) and the
  normalisation step of `scale_intensities`.
* `post-refinement.c`   — the refineable-parameter enumeration,
  `partiality_gradient`, `apply_shift` and `pr_iterate`.

C `double` values are modelled as real numbers.  The rational library is
embedded twice: an idealised exact model with unbounded integers
(`squish`, `rtnl_mul`, …, and the `ℚ`-valued matrix layer), which serves
as the benchmark for what the library is meant to compute, and a staged
model that carries the C types' finite arithmetic — the 64-bit
wrap-around of `signed long long int` (`wrap64`, `check_overflow`,
`rtnl_mul_w`, `rtnl_add_w`) and the 32-bit truncation performed by
`gcd()`'s `signed int` parameters and by the `signed int t` in
`rtnl_div()` (`wrap32`, `squish_c`, `rtnl_div_c`, …,
`rtnl_mtx_solve_c`).  Claims C8, C9 and C10 are settled against the
staged model, with the exact model exhibiting the intended result.
-/

namespace CrystFEL

/-! ## rational.c: exact model of the rational-number library -/

/-- Rational number as stored by the library: a numerator and a
denominator, both C `signed long long int`, here unbounded integers. -/
structure Rational where
  num : ℤ
  den : ℤ
deriving DecidableEq

/-- One step of the Euclidean loop in `gcd()`, with explicit fuel: C `%`
on signed integers truncates towards zero, which is `Int.tmod`. -/
def gcdCAux : ℕ → ℤ → ℤ → ℤ
  | 0, a, _ => a
  | fuel + 1, a, b => if b = 0 then a else gcdCAux fuel b (a.tmod b)

/-- Euclidean algorithm of `gcd()` in rational.c: loop until `b = 0`,
replacing `(a, b)` by `(b, a % b)` with C truncated `%`.  The fuel
`b.natAbs + 1` is enough because `|a % b| < |b|` whenever `b ≠ 0`
(see `gcdC_rec`), so the value equals the C loop's result.  Note that
the C function's parameters are `signed int`, so every caller truncates
its 64-bit arguments to 32 bits: the staged model applies `wrap32` at
the call sites (`squish_c`); this definition is the loop itself. -/
def gcdC (a b : ℤ) : ℤ := gcdCAux (b.natAbs + 1) a b

/-- Reduction to lowest terms, `squish()`, in the idealised model with
an unbounded gcd: zero becomes `0/1`; otherwise divide by the (possibly
negative) gcd and make the denominator positive.  C `/` on an exact
divisor is exact, and truncated division `Int.tdiv` is what C performs.
The real function passes its `long long` fields through
`gcd(signed int, signed int)`, truncating them to 32 bits — that staged
behaviour is `squish_c`; this exact version is the benchmark the staged
results are compared with (claims C9, C10). -/
def squish (r : Rational) : Rational :=
  if r.num = 0 then { num := r.num, den := 1 }
  else
    let g := gcdC r.num r.den
    let n := r.num.tdiv g
    let d := r.den.tdiv g
    if d < 0 then { num := -n, den := -d } else { num := n, den := d }

/-- Constructor `rtnl()`. -/
def rtnl (num den : ℤ) : Rational := squish { num := num, den := den }

/-- Constructor `rtnl_zero()`. -/
def rtnl_zero : Rational := { num := 0, den := 1 }

/-- Multiplication `rtnl_mul()` (exact model; the overflow check of the C
code either aborts the program or, as claim C9 examines, passes). -/
def rtnl_mul (a b : Rational) : Rational :=
  squish { num := a.num * b.num, den := a.den * b.den }

/-- Division `rtnl_div()` in the idealised model: swap numerator and
denominator of the divisor, then multiply.  The real function stores the
divisor's 64-bit numerator into a `signed int t` before the swap,
truncating it to 32 bits — that staged behaviour is `rtnl_div_c`. -/
def rtnl_div (a b : Rational) : Rational :=
  rtnl_mul a { num := b.den, den := b.num }

/-- Addition `rtnl_add()` in the idealised model: put both fractions
over the common denominator `a.den * b.den` and add the numerators.
This is the exact-result benchmark; the 64-bit wrap of the unchecked
final sum is `rtnl_add_w` (claim C9) and the fully staged version with
the 32-bit gcd narrowing in `squish` is `rtnl_add_c` (claim C10). -/
def rtnl_add (a b : Rational) : Rational :=
  squish { num := a.num * b.den + b.num * a.den, den := a.den * b.den }

/-- Subtraction `rtnl_sub()`: negate the numerator and add. -/
def rtnl_sub (a b : Rational) : Rational :=
  rtnl_add a { num := -b.num, den := b.den }

/-- Comparison `rtnl_cmp()`: cross-multiply and compare numerators. -/
def rtnl_cmp (a b : Rational) : ℤ :=
  if b.num * a.den < a.num * b.den then 1
  else if a.num * b.den < b.num * a.den then -1
  else 0

/-- Absolute value `rtnl_abs()`: squish, then negate a negative
numerator. -/
def rtnl_abs (a : Rational) : Rational :=
  let r := squish a
  if r.num < 0 then { num := -r.num, den := r.den } else r

/-- Canonical form of a stored rational, as claim C10 states it:
positive denominator and coprime numerator and denominator (which forces
zero to be represented as `0/1`). -/
def Canonical (r : Rational) : Prop :=
  0 < r.den ∧ Int.gcd r.num r.den = 1

instance (r : Rational) : Decidable (Canonical r) := by
  unfold Canonical; infer_instance

/-! ## rational.c: 64-bit wrapped model of the arithmetic -/

/-- Two's-complement wrap-around of a C `signed long long int` value. -/
def wrap64 (x : ℤ) : ℤ := (x + 2 ^ 63) % 2 ^ 64 - 2 ^ 63

/-- Overflow heuristic `check_overflow()` of rational.c; `true` means the
library calls `overflow()` and aborts.  Given the wrapped product `c` of
`a` and `b`, it reports overflow iff `c ≠ 0` while a factor is zero, or
`|c|` is smaller than `|a|` or `|b|`. -/
def check_overflow (c a b : ℤ) : Bool :=
  if a = 0 ∨ b = 0 then decide (c ≠ 0)
  else decide (|c| < |a| ∨ |c| < |b|)

/-- Multiplication `rtnl_mul()` with explicit 64-bit wrap-around:
`none` models the `abort()` in `overflow()`. -/
def rtnl_mul_w (a b : Rational) : Option Rational :=
  let n := wrap64 (a.num * b.num)
  let d := wrap64 (a.den * b.den)
  if check_overflow n a.num b.num then none
  else if check_overflow d a.den b.den then none
  else some (squish { num := n, den := d })

/-- Addition `rtnl_add()` with explicit 64-bit wrap-around.  The two
cross products and the common denominator are checked, but the final
sum `trt1.num + trt2.num` is not checked at all. -/
def rtnl_add_w (a b : Rational) : Option Rational :=
  let t1n := wrap64 (a.num * b.den)
  let t2n := wrap64 (b.num * a.den)
  if check_overflow t1n a.num b.den then none
  else if check_overflow t2n b.num a.den then none
  else
    let t1d := wrap64 (a.den * b.den)
    if check_overflow t1d a.den b.den then none
    else some (squish { num := wrap64 (t1n + t2n), den := t1d })

/-! ## rational.c: fully staged model (64-bit fields, 32-bit narrowing)

The `Rational` fields are C `signed long long int`, but two places pass
them through 32-bit `signed int` values: `gcd()` declares
`signed int` parameters, so `squish()` hands it truncated copies of
`num` and `den`, and `rtnl_div()` stores the divisor's numerator in a
`signed int t` before swapping.  The definitions below carry both the
64-bit wrap of products/sums and this 32-bit truncation; `none` models
the `abort()` of `overflow()` — an abort anywhere terminates the whole
program, so any `none` propagates. -/

/-- Two's-complement truncation of a value to a C `signed int`, as
performed when a `signed long long int` argument is passed to a
`signed int` parameter. -/
def wrap32 (x : ℤ) : ℤ := (x + 2 ^ 31) % 2 ^ 32 - 2 ^ 31

/-- Staged `squish()`: identical to `squish` except that the gcd is
taken of the arguments truncated to 32 bits, because `gcd()` takes
`signed int` parameters while the fields are 64-bit.  (The C asserts
`g != 0`; no input of the claims reaches `g = 0`.) -/
def squish_c (r : Rational) : Rational :=
  if r.num = 0 then { num := r.num, den := 1 }
  else
    let g := gcdC (wrap32 r.num) (wrap32 r.den)
    let n := r.num.tdiv g
    let d := r.den.tdiv g
    if d < 0 then { num := -n, den := -d } else { num := n, den := d }

/-- Staged `rtnl_mul()`: 64-bit products, both overflow checks, then
the staged `squish`. -/
def rtnl_mul_c (a b : Rational) : Option Rational :=
  let n := wrap64 (a.num * b.num)
  let d := wrap64 (a.den * b.den)
  if check_overflow n a.num b.num then none
  else if check_overflow d a.den b.den then none
  else some (squish_c { num := n, den := d })

/-- Staged `rtnl_div()`: `signed int t = b.num` truncates the divisor's
numerator to 32 bits, then numerator and denominator are swapped and
`rtnl_mul` is called. -/
def rtnl_div_c (a b : Rational) : Option Rational :=
  rtnl_mul_c a { num := b.den, den := wrap32 b.num }

/-- Staged `rtnl_add()`: 64-bit cross products and common denominator,
each checked, then the unchecked 64-bit sum of the numerators and the
staged `squish`. -/
def rtnl_add_c (a b : Rational) : Option Rational :=
  let t1n := wrap64 (a.num * b.den)
  let t2n := wrap64 (b.num * a.den)
  if check_overflow t1n a.num b.den then none
  else if check_overflow t2n b.num a.den then none
  else
    let t1d := wrap64 (a.den * b.den)
    if check_overflow t1d a.den b.den then none
    else some (squish_c { num := wrap64 (t1n + t2n), den := t1d })

/-- Staged `rtnl_sub()`: negate the 64-bit numerator and add. -/
def rtnl_sub_c (a b : Rational) : Option Rational :=
  rtnl_add_c a { num := wrap64 (-b.num), den := b.den }

/-- Staged `rtnl_cmp()`: the two 64-bit cross products (computed with
no overflow check) are compared; the denominators the C code also
computes are unused.  Returns `1`, `-1` or `0`. -/
def rtnl_cmp_c (a b : Rational) : ℤ :=
  let t1n := wrap64 (a.num * b.den)
  let t2n := wrap64 (b.num * a.den)
  if t2n < t1n then 1 else if t1n < t2n then -1 else 0

/-- Staged `rtnl_abs()`: squish (with the 32-bit gcd narrowing), then
negate a negative numerator. -/
def rtnl_abs_c (a : Rational) : Rational :=
  let r := squish_c a
  if r.num < 0 then { num := wrap64 (-r.num), den := r.den } else r

/-! ## rational.c: the matrix layer

`RationalMatrix` stores `Rational` values.  Two embeddings are given:
the staged one below (`rtnl_mtx_solve_c`, `rtnl_mtx_mult_c`), whose
element operations are the staged `rtnl_*_c` with their 64-bit wrap and
32-bit narrowing, and an idealised one over `ℚ` (`rtnl_mtx_solve`,
`rtnl_mtx_mult`), which is what the algorithm computes when the element
operations are exact; the exact layer is the benchmark against which
claim C8 measures the staged solver. -/

variable {n : ℕ}

/-- Matrix-vector product `rtnl_mtx_mult()`: row-by-row accumulation of
`rtnl_mul`/`rtnl_add` starting from `rtnl_zero`. -/
def rtnl_mtx_mult (m : Matrix (Fin n) (Fin n) ℚ) (vec : Fin n → ℚ) : Fin n → ℚ :=
  fun i => ∑ j, m i j * vec j

/-- State of the in-place Gaussian elimination in `rtnl_mtx_solve()`:
the pivot-row counter `h`, the working copy `cm` of the matrix and the
working copy `vec` of the right-hand side. -/
structure ElimState (n : ℕ) where
  hrow : ℕ
  cm : Matrix (Fin n) (Fin n) ℚ
  vec : Fin n → ℚ

/-- Pivot search of `rtnl_mtx_solve()`: scan rows `h .. n-1` of column
`k` for the first row carrying the largest `rtnl_abs` value, starting
from `prow = 0`, `pval = 0`; a row is recorded when `rtnl_cmp` finds its
entry strictly larger than the current `pval` (on exact rationals
`rtnl_cmp(rtnl_abs x, pval) > 0` is `pval < |x|`). -/
def pivot_search (cm : Matrix (Fin n) (Fin n) ℚ) (hrow : ℕ) (k : Fin n) :
    Fin n × ℚ :=
  (List.finRange n).foldl
    (fun (st : Fin n × ℚ) (i : Fin n) =>
      if hrow ≤ (i : ℕ) ∧ st.2 < |cm i k| then (i, |cm i k|) else st)
    (⟨0, Nat.lt_of_le_of_lt (Nat.zero_le _) k.isLt⟩, 0)

/-- Row swap of the elimination loop (rows `a` and `b` of `cm`). -/
def swap_rows (cm : Matrix (Fin n) (Fin n) ℚ) (a b : Fin n) :
    Matrix (Fin n) (Fin n) ℚ :=
  fun i j => cm (Equiv.swap a b i) j

/-- Swap of two right-hand-side entries. -/
def swap_vec (v : Fin n → ℚ) (a b : Fin n) : Fin n → ℚ :=
  fun i => v (Equiv.swap a b i)

/-- One iteration of the elimination loop of `rtnl_mtx_solve()` for
column `k`: find the pivot; if the column is all zero from row `h` down,
only `k` advances; otherwise swap the pivot row up to row `h`, subtract
`dval = cm[i][k]/cm[h][k]` times row `h` from every row `i > h` (and the
same from the right-hand side), and advance `h`.  The C loop reads each
`dval` before touching row `i` and never modifies row `h`, so the
in-place update equals this simultaneous one. -/
def elim_step (s : ElimState n) (k : Fin n) : ElimState n :=
  if hh : s.hrow < n then
    let pv := pivot_search s.cm s.hrow k
    if pv.2 = 0 then s
    else
      let hr : Fin n := ⟨s.hrow, hh⟩
      let cm1 := swap_rows s.cm hr pv.1
      let vec1 := swap_vec s.vec hr pv.1
      let cm2 : Matrix (Fin n) (Fin n) ℚ := fun i j =>
        if hr < i then cm1 i j - cm1 i k / cm1 hr k * cm1 hr j else cm1 i j
      let vec2 : Fin n → ℚ := fun i =>
        if hr < i then vec1 i - cm1 i k / cm1 hr k * vec1 hr else vec1 i
      { hrow := s.hrow + 1, cm := cm2, vec := vec2 }
  else s

/-- Gaussian elimination phase of `rtnl_mtx_solve()`: the C loop runs
`k = 0 .. cols` inclusive, but its final iteration (`k = cols`) touches
the state only through the pivot search, which is an empty loop once
`h = rows` (and reads out of bounds otherwise, which for the
non-singular inputs of claim C8 never happens); so the model folds over
`k = 0 .. n-1`. -/
def gauss_eliminate (m : Matrix (Fin n) (Fin n) ℚ) (ivec : Fin n → ℚ) :
    ElimState n :=
  (List.finRange n).foldl elim_step { hrow := 0, cm := m, vec := ivec }

/-- One step of the back-substitution loop of `rtnl_mtx_solve()`:
`ans[i] = (vec[i] - sum over j > i of cm[i][j]*ans[j]) / cm[i][i]`. -/
def backsub_step (cm : Matrix (Fin n) (Fin n) ℚ) (vec : Fin n → ℚ)
    (ans : Fin n → ℚ) (i : Fin n) : Fin n → ℚ :=
  Function.update ans i
    ((vec i - ∑ j ∈ Finset.univ.filter (fun j => i < j), cm i j * ans j) / cm i i)

/-- Back-substitution loop of `rtnl_mtx_solve()`, `i = n-1` down to `0`.
The C answer array arrives uninitialised but every `ans[i]` is written
before it is read (only entries `j > i` are read), so the model starts
from the all-zero vector. -/
def back_substitute (cm : Matrix (Fin n) (Fin n) ℚ) (vec : Fin n → ℚ) :
    Fin n → ℚ :=
  (List.finRange n).reverse.foldl (fun ans i => backsub_step cm vec ans i)
    (fun _ => 0)

/-- Solver `rtnl_mtx_solve()`: copy the inputs, eliminate, then
back-substitute.  The C function returns nonzero (error) only for a
non-square matrix or a failed allocation; for the square matrices of
the claim it returns 0 and fills the answer array, which this embedding
returns directly. -/
def rtnl_mtx_solve (m : Matrix (Fin n) (Fin n) ℚ) (ivec : Fin n → ℚ) :
    Fin n → ℚ :=
  let s := gauss_eliminate m ivec
  back_substitute s.cm s.vec

/-- Invariant of the elimination loop of `rtnl_mtx_solve()` after the
columns below `m` have been processed (proof infrastructure): the pivot
counter equals `m`, the processed columns are zero below the diagonal
and their pivots are nonzero, the working matrix has trivial kernel,
and the working right-hand side tracks `cm · x` for the solution `x` of
the original system. -/
def elim_invariant (x : Fin n → ℚ) (m : ℕ) (s : ElimState n) : Prop :=
  s.hrow = m ∧
  (∀ i j : Fin n, (j : ℕ) < m → j < i → s.cm i j = 0) ∧
  (∀ j : Fin n, (j : ℕ) < m → s.cm j j ≠ 0) ∧
  (∀ v : Fin n → ℚ, s.cm.mulVec v = 0 → v = 0) ∧
  s.cm.mulVec x = s.vec

/-! ### Staged matrix layer -/

/-- Collect a family of staged results: `some` exactly when every
component is `some` (an `abort()` in any element operation terminates
the whole program). -/
def seqFin {α : Type} (f : Fin n → Option α) : Option (Fin n → α) :=
  if h : ((List.finRange n).all fun i => (f i).isSome) = true then
    some (fun i => (f i).get (List.all_eq_true.mp h i (List.mem_finRange i)))
  else none

/-- State of the staged in-place Gaussian elimination of
`rtnl_mtx_solve()`: pivot-row counter, working matrix and working
right-hand side, all over stored `Rational` values. -/
structure ElimStateR (n : ℕ) where
  hrow : ℕ
  cm : Matrix (Fin n) (Fin n) Rational
  vec : Fin n → Rational

/-- Staged pivot search of `rtnl_mtx_solve()`: scan rows `h .. n-1` of
column `k` from `prow = 0`, `pval = rtnl_zero()`, recording a row when
`rtnl_cmp(rtnl_abs(cm[i][k]), pval) > 0` (the comparison returns `1`). -/
def pivot_search_c (cm : Matrix (Fin n) (Fin n) Rational) (hrow : ℕ)
    (k : Fin n) : Fin n × Rational :=
  (List.finRange n).foldl
    (fun (st : Fin n × Rational) (i : Fin n) =>
      if hrow ≤ (i : ℕ) ∧ rtnl_cmp_c (rtnl_abs_c (cm i k)) st.2 = 1
      then (i, rtnl_abs_c (cm i k)) else st)
    (⟨0, Nat.lt_of_le_of_lt (Nat.zero_le _) k.isLt⟩, rtnl_zero)

/-- One staged iteration of the elimination loop for column `k`: find
the pivot; if `rtnl_cmp(pval, rtnl_zero()) == 0` only `k` advances;
otherwise swap the pivot row up to row `h`, compute
`dval = rtnl_div(cm[i][k], cm[h][k])` for each row `i > h` (the C reads
`dval` before touching row `i` and never modifies row `h`, so the
in-place update equals this simultaneous one), subtract `dval` times
row `h` from row `i` over all columns and from the right-hand side, and
advance `h`.  Any aborting element operation yields `none`. -/
def elim_step_c (s : ElimStateR n) (k : Fin n) : Option (ElimStateR n) :=
  if hh : s.hrow < n then
    let pv := pivot_search_c s.cm s.hrow k
    if rtnl_cmp_c pv.2 rtnl_zero = 0 then some s
    else
      let hr : Fin n := ⟨s.hrow, hh⟩
      let cm1 : Matrix (Fin n) (Fin n) Rational :=
        fun i j => s.cm (Equiv.swap hr pv.1 i) j
      let vec1 : Fin n → Rational := fun i => s.vec (Equiv.swap hr pv.1 i)
      (seqFin (fun i =>
        if hr < i then rtnl_div_c (cm1 i k) (cm1 hr k) else some rtnl_zero)).bind
        (fun dval =>
          (seqFin (fun i => seqFin (fun j =>
            if hr < i then
              (rtnl_mul_c (dval i) (cm1 hr j)).bind
                (fun p => rtnl_sub_c (cm1 i j) p)
            else some (cm1 i j)))).bind
          (fun cm2 =>
            (seqFin (fun i =>
              if hr < i then
                (rtnl_mul_c (dval i) (vec1 hr)).bind
                  (fun p => rtnl_sub_c (vec1 i) p)
              else some (vec1 i))).bind
            (fun vec2 =>
              some { hrow := s.hrow + 1, cm := Matrix.of cm2, vec := vec2 })))
  else some s

/-- Staged Gaussian elimination phase of `rtnl_mtx_solve()`: as in the
exact model, the C loop runs `k = 0 .. cols` inclusive, but its final
iteration touches the state only through the pivot search, an empty
loop once `h = rows` (and an out-of-bounds read otherwise, which the
concrete run of claim C8 does not reach); so the model folds over
`k = 0 .. n-1`. -/
def gauss_eliminate_c (m : Matrix (Fin n) (Fin n) Rational)
    (ivec : Fin n → Rational) : Option (ElimStateR n) :=
  (List.finRange n).foldlM elim_step_c { hrow := 0, cm := m, vec := ivec }

/-- One staged step of the back-substitution loop:
`sum = Σ over j > i of rtnl_mul(cm[i][j], ans[j])` accumulated with
`rtnl_add` from `rtnl_zero` in increasing `j`, then
`ans[i] = rtnl_div(rtnl_sub(vec[i], sum), cm[i][i])`. -/
def backsub_step_c (cm : Matrix (Fin n) (Fin n) Rational)
    (vec : Fin n → Rational) (ans : Fin n → Rational) (i : Fin n) :
    Option (Fin n → Rational) :=
  ((List.finRange n).foldlM
    (fun acc j =>
      if i < j then
        (rtnl_mul_c (cm i j) (ans j)).bind (fun av => rtnl_add_c acc av)
      else some acc)
    rtnl_zero).bind
  (fun sum => (rtnl_sub_c (vec i) sum).bind
    (fun s2 => (rtnl_div_c s2 (cm i i)).map (fun q => Function.update ans i q)))

/-- Staged back-substitution loop, `i = n-1` down to `0`; as in the
exact model the C answer array arrives uninitialised but every `ans[i]`
is written before it is read, so the model starts from zeros. -/
def back_substitute_c (cm : Matrix (Fin n) (Fin n) Rational)
    (vec : Fin n → Rational) : Option (Fin n → Rational) :=
  (List.finRange n).reverse.foldlM (fun ans i => backsub_step_c cm vec ans i)
    (fun _ => rtnl_zero)

/-- Staged solver `rtnl_mtx_solve()`: copy the inputs, eliminate, then
back-substitute; the C function returns 0 (success) for every square
matrix unless an element operation aborts the program. -/
def rtnl_mtx_solve_c (m : Matrix (Fin n) (Fin n) Rational)
    (ivec : Fin n → Rational) : Option (Fin n → Rational) :=
  (gauss_eliminate_c m ivec).bind (fun s => back_substitute_c s.cm s.vec)

/-- Staged matrix-vector product `rtnl_mtx_mult()`: each entry is
accumulated with `rtnl_add` from `rtnl_zero()` over the staged
products. -/
def rtnl_mtx_mult_c (m : Matrix (Fin n) (Fin n) Rational)
    (vec : Fin n → Rational) : Option (Fin n → Rational) :=
  seqFin (fun i =>
    (List.finRange n).foldlM
      (fun acc j => (rtnl_mul_c (m i j) (vec j)).bind (fun a => rtnl_add_c acc a))
      rtnl_zero)

/-- Value of a stored rational. -/
def ratq (r : Rational) : ℚ := (r.num : ℚ) / (r.den : ℚ)

/-! ### Concrete inputs for claims C8 and C10 -/

/-- First operand of the C10 failing addition: `477218588/1`. -/
def a10 : Rational := { num := 477218588, den := 1 }

/-- Second operand of the C10 failing addition: `10/9`. -/
def b10 : Rational := { num := 10, den := 9 }

/-- What the staged `rtnl_add` returns on `a10 + b10`. -/
def r10 : Rational := { num := 1431655767, den := 3 }

/-- The exact value of `a10 + b10`, namely `4294967302/9`. -/
def exact10 : Rational := { num := 4294967302, den := 9 }

/-- The stored rational `1/1`. -/
def one1 : Rational := { num := 1, den := 1 }

/-- The stored rational `2^32/1`: a nonzero integer whose numerator
truncates to 0 in 32 bits. -/
def big32 : Rational := { num := 2 ^ 32, den := 1 }

/-- The stored rational `1/0`. -/
def oneover0 : Rational := { num := 1, den := 0 }

/-- The C8 failing matrix `[[2^31, 0], [0, 1]]` as stored rationals:
integer entries, obviously non-singular. -/
def A8 : Matrix (Fin 2) (Fin 2) Rational :=
  Matrix.of ![![{ num := 2 ^ 31, den := 1 }, { num := 0, den := 1 }],
              ![{ num := 0, den := 1 }, { num := 1, den := 1 }]]

/-- The value of `A8` as an exact rational matrix. -/
def A8Q : Matrix (Fin 2) (Fin 2) ℚ := Matrix.of ![![2 ^ 31, 0], ![0, 1]]

/-- The C8 solution vector `x = (1, 1)`. -/
def x8 : Fin 2 → Rational := ![{ num := 1, den := 1 }, { num := 1, den := 1 }]

/-- What the staged solver actually returns for `A8` and right-hand
side `A8 · x8`: the first component is `-1`, not `1`. -/
def ans8 : Fin 2 → Rational := ![{ num := -1, den := 1 }, { num := 1, den := 1 }]

/-! ## hrs-scaling.c: data model -/

/-- Minimum partiality of a reflection for it to be used for scaling
(`MIN_PART_SCALE`). -/
noncomputable def MIN_PART_SCALE : ℝ := 0.05

/-- Minimum partiality of a reflection for it to be merged
(`MIN_PART_MERGE`). -/
noncomputable def MIN_PART_MERGE : ℝ := 0.05

/-- One observed reflection of one crystal, with the reflection fields
hrs-scaling.c reads: asymmetric-unit indices, measured intensity with
its estimated standard deviation, partiality and Lorentz factor. -/
structure Obs where
  h : ℤ
  k : ℤ
  l : ℤ
  intensity : ℝ
  esd_intensity : ℝ
  partiality : ℝ
  lorentz : ℝ

/-- Per-crystal state used by hrs-scaling.c: the user flag, the scale
factor `osf` (G), the temperature factor `Bfac` (B), the resolution
function `(h,k,l) ↦ s = 1/d` of the crystal's unit cell (the calls
`resolution(crystal_get_cell(cr), h, k, l)`; `resolution` lives in
cell-utils.c and is kept abstract) and the reflection list. -/
structure Crystal where
  user_flag : ℤ
  osf : ℝ
  Bfac : ℝ
  res : ℤ → ℤ → ℤ → ℝ
  reflections : List Obs

/-- One entry of a reference reflection list (reflist.h): merged
intensity, estimated standard deviation, scratch accumulators
`temp1`/`temp2` and redundancy.  `present` records whether the entry
exists in the list (`find_refl` returns NULL when it does not; a
freshly added entry has zeroed fields). -/
structure RefEntry where
  present : Bool
  intensity : ℝ
  esd_intensity : ℝ
  temp1 : ℝ
  temp2 : ℝ
  redundancy : ℤ

/-- Reference reflection list, keyed by Miller indices. -/
def RefList : Type := ℤ × ℤ × ℤ → RefEntry

/-- Empty reflection list `reflist_new()`. -/
def reflist_new : RefList := fun _ =>
  { present := false, intensity := 0, esd_intensity := 0,
    temp1 := 0, temp2 := 0, redundancy := 0 }

/-! ## hrs-scaling.c: merging -/

/-- Body of the reflection loop of `run_merge_job()` for one
observation: observations with partiality below `MIN_PART_MERGE` are
skipped; the reference entry is created zeroed if absent; then
`temp1 += (I/(p·L)) · G · exp(2·B·res)`, `temp2 += 1.0` and
`redundancy += 1`, with `res = resolution(cell, h, k, l)`.  The
per-entry lock serialises these updates, so the parallel merge is
modelled as a sequential fold. -/
noncomputable def merge_one (cr : Crystal) (full : RefList) (refl : Obs) :
    RefList :=
  if refl.partiality < MIN_PART_MERGE then full
  else
    let key := (refl.h, refl.k, refl.l)
    let f := full key
    let e : RefEntry :=
      if f.present then f
      else { present := true, intensity := 0, esd_intensity := 0,
             temp1 := 0, temp2 := 0, redundancy := 0 }
    let res := cr.res refl.h refl.k refl.l
    let corr := refl.partiality * refl.lorentz
    let Ihl := refl.intensity / corr
    Function.update full key
      { e with present := true,
               temp1 := e.temp1 + Ihl * cr.osf * Real.exp (2 * cr.Bfac * res),
               temp2 := e.temp2 + 1,
               redundancy := e.redundancy + 1 }

/-- Merge worker `run_merge_job()` for one crystal: a crystal whose user
flag is nonzero contributes nothing. -/
noncomputable def run_merge_job (full : RefList) (cr : Crystal) : RefList :=
  if cr.user_flag ≠ 0 then full
  else cr.reflections.foldl (merge_one cr) full

/-- Merging pass `lsq_intensities()`: fold `run_merge_job` over all the
crystals starting from a fresh list, then set every entry's intensity
to `temp1 / temp2`. -/
noncomputable def lsq_intensities (crystals : List Crystal) : RefList :=
  let full := crystals.foldl run_merge_job reflist_new
  fun key =>
    let e := full key
    if e.present then { e with intensity := e.temp1 / e.temp2 } else e

/-! ## hrs-scaling.c: error estimation -/

/-- Body of the reflection loop of `run_esd_job()` for one observation:
skip partialities below `MIN_PART_MERGE`, then accumulate
`temp1 += (I/(G·p·L) - I_full)²` into the matching reference entry. -/
noncomputable def esd_one (cr : Crystal) (full : RefList) (refl : Obs) :
    RefList :=
  if refl.partiality < MIN_PART_MERGE then full
  else
    let key := (refl.h, refl.k, refl.l)
    let f := full key
    let corr := refl.partiality * refl.lorentz
    let Ihl := refl.intensity / (cr.osf * corr)
    Function.update full key { f with temp1 := f.temp1 + (Ihl - f.intensity) ^ 2 }

/-- Error-estimation worker `run_esd_job()` for one crystal. -/
noncomputable def run_esd_job (full : RefList) (cr : Crystal) : RefList :=
  if cr.user_flag ≠ 0 then full
  else cr.reflections.foldl (esd_one cr) full

/-- Error-estimation pass `calculate_esds()`: zero the accumulators of
every entry, run the esd jobs over all crystals, then set
`esd = sqrt(temp1)/redundancy` and suppress (`redundancy := 0`) every
entry whose redundancy is below `min_red`. -/
noncomputable def calculate_esds (crystals : List Crystal) (full : RefList)
    (min_red : ℤ) : RefList :=
  let full0 : RefList := fun key =>
    let e := full key
    if e.present then { e with temp1 := 0, temp2 := 0 } else e
  let full1 := crystals.foldl run_esd_job full0
  fun key =>
    let e := full1 key
    if e.present then
      let e1 := { e with esd_intensity := Real.sqrt e.temp1 / (e.redundancy : ℝ) }
      if e.redundancy < min_red then { e1 with redundancy := 0 } else e1
    else e

/-! ## hrs-scaling.c: scaling -/

/-- Selection and transformation applied by the reflection loop of
`run_scale_job()` to one observation: the fitting point
`(x, y) = (res·res, ln(Ihl/Ih))` with `Ihl = I/(p·L)` and `Ih` the
reference intensity, produced when the observation passes every filter
(partiality at least `MIN_PART_SCALE`, intensity at least `5σ`,
reference entry found, `Ihl > 0`, `Ih > 0`); `none` when it is skipped.
The isnan/isinf tests of the C code have no counterpart on exact
reals. -/
noncomputable def scale_point (reference : RefList) (cr : Crystal) (refl : Obs) :
    Option (ℝ × ℝ) :=
  let res := cr.res refl.h refl.k refl.l
  if refl.partiality < MIN_PART_SCALE ∨ refl.intensity < 5 * refl.esd_intensity
  then none
  else
    let e := reference (refl.h, refl.k, refl.l)
    if e.present then
      let Ih := e.intensity
      let corr := refl.partiality * refl.lorentz
      let Ihl := refl.intensity / corr
      if Ihl ≤ 0 ∨ Ih ≤ 0 then none
      else some (res * res, Real.log (Ihl / Ih))
    else none

/-- Weighted least-squares line fit `gsl_fit_wlinear` (GSL, external,
called with the unit weights that `run_scale_job` passes): intercept
`c0` and slope `c1` of the best line through the points.  A degenerate
system (all x equal; zero determinant) makes GSL produce non-finite
values, which `run_scale_job` catches with its `isnan(c0)` test; that
case is `none` here. -/
noncomputable def fit_wlinear (pts : List (ℝ × ℝ)) : Option (ℝ × ℝ) :=
  let len : ℝ := pts.length
  let Sx := (pts.map fun p => p.1).sum
  let Sy := (pts.map fun p => p.2).sum
  let Sxx := (pts.map fun p => p.1 * p.1).sum
  let Sxy := (pts.map fun p => p.1 * p.2).sum
  let delta := len * Sxx - Sx * Sx
  if delta = 0 then none
  else some ((Sy * Sxx - Sx * Sxy) / delta, (len * Sxy - Sx * Sy) / delta)

/-- Scaling worker `run_scale_job()` for one crystal: skip flagged
crystals; build the fitting points; flag the crystal (leaving G and B
untouched) when fewer than two points qualify or the fit fails;
otherwise set `G = 1/exp(c0)` and `B = -c1/2`. -/
noncomputable def run_scale_job (reference : RefList) (cr : Crystal) : Crystal :=
  if cr.user_flag ≠ 0 then cr
  else
    let pts := cr.reflections.filterMap (scale_point reference cr)
    if pts.length < 2 then { cr with user_flag := 1 }
    else
      match fit_wlinear pts with
      | none => { cr with user_flag := 1 }
      | some (c0, c1) => { cr with osf := 1 / Real.exp c0, Bfac := -c1 / 2 }

/-- Claim C2's selection and regressed quantity, as the claim states
them (kept for refutation): observations with `p ≥ MIN_PART_SCALE` and
`|I| ≥ 5σ` that have a reference entry, with `y = ln(I / (L · I_ref))`
against `x = s²`. -/
noncomputable def claim_scale_point (reference : RefList) (cr : Crystal)
    (refl : Obs) : Option (ℝ × ℝ) :=
  let res := cr.res refl.h refl.k refl.l
  let e := reference (refl.h, refl.k, refl.l)
  if MIN_PART_SCALE ≤ refl.partiality ∧ 5 * refl.esd_intensity ≤ |refl.intensity|
      ∧ e.present then
    some (res * res, Real.log (refl.intensity / (refl.lorentz * e.intensity)))
  else none

/-- Claim C2 as stated, as a predicate on the embedded `run_scale_job`
(kept for refutation): with the claim's selection and regressed
quantity, fewer than two qualifying observations flag the crystal and
leave G and B alone; otherwise `G = exp(-c0)` and `B = -c1/2` from the
fitted intercept and slope. -/
noncomputable def C2_claimed_behaviour (reference : RefList) (cr : Crystal) :
    Prop :=
  let pts := cr.reflections.filterMap (claim_scale_point reference cr)
  if pts.length < 2 then
    run_scale_job reference cr = { cr with user_flag := 1 }
  else
    ∃ c0 c1, fit_wlinear pts = some (c0, c1) ∧
      run_scale_job reference cr
        = { cr with osf := Real.exp (-c0), Bfac := -c1 / 2 }

/-! ## hrs-scaling.c: outlier rejection and normalisation -/

/-- Outlier rejection `reject_outliers()`: flag a crystal exactly when
`osf < 0`, `osf > 10`, `Bfac < -40e-20` or `Bfac > 40e-20` (the isnan
tests have no counterpart on exact reals). -/
noncomputable def reject_outliers (crystals : List Crystal) : List Crystal :=
  crystals.map fun cr =>
    if cr.osf < 0 ∨ cr.osf > 10 ∨ cr.Bfac < -40e-20 ∨ cr.Bfac > 40e-20 then
      { cr with user_flag := 1 }
    else cr

/-- Outlier condition of claim C4 as stated (kept for refutation):
`G ∉ (0, 10]` or `|B| > 40e-20`. -/
noncomputable def claim_outlier (cr : Crystal) : Prop :=
  ¬(0 < cr.osf ∧ cr.osf ≤ 10) ∨ 40e-20 < |cr.Bfac|

/-- Normalisation step of the scaling loop in `scale_intensities()`:
`norm_sf` is the arithmetic mean of the scale factors over the crystals
with user flag 0, and every crystal's scale factor is divided by it. -/
noncomputable def normalise_scale_factors (crystals : List Crystal) :
    List Crystal :=
  let unflagged := crystals.filter fun cr => cr.user_flag = 0
  let total_sf := (unflagged.map Crystal.osf).sum
  let norm_sf := total_sf / (unflagged.length : ℝ)
  crystals.map fun cr => { cr with osf := cr.osf / norm_sf }

/-! ## post-refinement.c -/

/-- First member of the refineable-parameter enum. -/
def REF_ASX : ℕ := 0

/-- Loop bound `NUM_PARAMS`: the second member of the enum, so its value
is 1. -/
def NUM_PARAMS : ℕ := 1

/-- Enum member `REF_BSX` (declared after `NUM_PARAMS`). -/
def REF_BSX : ℕ := 2

/-- Enum member `REF_CSX`. -/
def REF_CSX : ℕ := 3

/-- Enum member `REF_ASY`. -/
def REF_ASY : ℕ := 4

/-- Enum member `REF_BSY`. -/
def REF_BSY : ℕ := 5

/-- Enum member `REF_CSY`. -/
def REF_CSY : ℕ := 6

/-- Enum member `REF_ASZ`. -/
def REF_ASZ : ℕ := 7

/-- Enum member `REF_BSZ`. -/
def REF_BSZ : ℕ := 8

/-- Enum member `REF_CSZ`. -/
def REF_CSZ : ℕ := 9

/-- Enum member `REF_DIV`. -/
def REF_DIV : ℕ := 10

/-- Enum member `REF_R`. -/
def REF_R : ℕ := 11

/-- The eleven physical per-crystal parameters named by claim C3. -/
def claim_params : List ℕ :=
  [REF_ASX, REF_BSX, REF_CSX, REF_ASY, REF_BSY, REF_CSY,
   REF_ASZ, REF_BSZ, REF_CSZ, REF_DIV, REF_R]

/-- Claim C3 as stated (kept for refutation): of the eleven physical
parameters some single one is excluded and every other lies below the
loop bound `NUM_PARAMS`, i.e. is processed by the gradient,
normal-equation and shift loops of `pr_iterate` (see
`C3_only_asx_refined` for the fact that those loops process exactly the
indices below `NUM_PARAMS`). -/
def C3_claimed_behaviour : Prop :=
  ∃ excl : ℕ, ∀ p ∈ claim_params, p ≠ excl → p < NUM_PARAMS

/-- Gradient `partiality_gradient()` of post-refinement.c: dp/dr at
excitation error `r`, via the degree of penetration
`q = (r + profile_radius)/(2·profile_radius)`, `dp/dq = 6(q - q²)` and
`dq/dr = 1/(2·profile_radius)`. -/
noncomputable def partiality_gradient (r profile_radius : ℝ) : ℝ :=
  let q := (r + profile_radius) / (2 * profile_radius)
  let dpdq := 6 * (q - q ^ 2)
  let dqdr := 1 / (2 * profile_radius)
  dpdq * dqdr

/-- Reflection fields of an image that `pr_iterate()` reads. -/
structure PRRefl where
  h : ℤ
  k : ℤ
  l : ℤ
  intensity : ℝ
  partiality : ℝ
  scalable : Bool

/-- Image (crystal) state mutated by `pr_iterate()` through
`apply_shift()`: the nine reciprocal-basis components, the beam
divergence and the profile radius, together with the scale factor and
the reflection list read while building the equations. -/
structure PRImage where
  asx : ℝ
  asy : ℝ
  asz : ℝ
  bsx : ℝ
  bsy : ℝ
  bsz : ℝ
  csx : ℝ
  csy : ℝ
  csz : ℝ
  div : ℝ
  profile_radius : ℝ
  osf : ℝ
  reflections : List PRRefl

/-- Shift of one reciprocal-basis component, `apply_cell_shift()`. -/
def apply_cell_shift (im : PRImage) (kp : ℕ) (shift : ℝ) : PRImage :=
  if kp = REF_ASX then { im with asx := im.asx + shift }
  else if kp = REF_ASY then { im with asy := im.asy + shift }
  else if kp = REF_ASZ then { im with asz := im.asz + shift }
  else if kp = REF_BSX then { im with bsx := im.bsx + shift }
  else if kp = REF_BSY then { im with bsy := im.bsy + shift }
  else if kp = REF_BSZ then { im with bsz := im.bsz + shift }
  else if kp = REF_CSX then { im with csx := im.csx + shift }
  else if kp = REF_CSY then { im with csy := im.csy + shift }
  else if kp = REF_CSZ then { im with csz := im.csz + shift }
  else im

/-- Parameter shift `apply_shift()`: divergence, profile radius, or a
reciprocal-basis component.  The default branch of the C switch calls
`abort()`; it is unreachable from `pr_iterate`, whose loop runs
`param < NUM_PARAMS`. -/
def apply_shift (im : PRImage) (kp : ℕ) (shift : ℝ) : PRImage :=
  if kp = REF_DIV then { im with div := im.div + shift }
  else if kp = REF_R then
    { im with profile_radius := im.profile_radius + shift }
  else apply_cell_shift im kp shift

/-- One Gauss-Newton iteration `pr_iterate()`.  The per-parameter
gradient function (`gradient()`, whose geometry helpers `resolution`
and `angle_between` live outside this file's sources) and the
Householder solver (`gsl_linalg_HH_solve`, GSL, external) are taken as
parameters; the claims below hold for every choice of them.  For each
scalable reflection, with `I_full = osf · intensity(match)` and
`delta_I = I - p·I_full`, the normal matrix gets
`M[g][k] += grad_g · grad_k · I_full²` and the right-hand side
`v[k] += delta_I · I_full · grad_k`, for `g, k` running over
`0 .. NUM_PARAMS-1`; the solved shifts are then applied through
`apply_shift` for `param = 0 .. NUM_PARAMS-1`. -/
noncomputable def pr_iterate
    (gradient : PRImage → ℕ → PRRefl → ℝ → ℝ)
    (hh_solve : (Fin NUM_PARAMS → Fin NUM_PARAMS → ℝ) → (Fin NUM_PARAMS → ℝ) →
      Fin NUM_PARAMS → ℝ)
    (full : RefList) (im : PRImage) : PRImage :=
  let contrib := im.reflections.filter fun refl => refl.scalable
  let Ifull := fun refl : PRRefl =>
    im.osf * (full (refl.h, refl.k, refl.l)).intensity
  let grads := fun (refl : PRRefl) (kp : Fin NUM_PARAMS) =>
    gradient im (kp : ℕ) refl im.profile_radius
  let M : Fin NUM_PARAMS → Fin NUM_PARAMS → ℝ := fun g kp =>
    (contrib.map fun refl => grads refl g * grads refl kp * Ifull refl ^ 2).sum
  let v : Fin NUM_PARAMS → ℝ := fun kp =>
    (contrib.map fun refl =>
      (refl.intensity - refl.partiality * Ifull refl) * Ifull refl
        * grads refl kp).sum
  let shifts := hh_solve M v
  (List.finRange NUM_PARAMS).foldl
    (fun (im1 : PRImage) (param : Fin NUM_PARAMS) =>
      apply_shift im1 (param : ℕ) (shifts param)) im

/-- Code-side qualification test of `run_scale_job`, stated
declaratively: partiality at least `MIN_PART_SCALE`, intensity at least
`5σ` (signed), reference entry present, positive corrected intensity
and positive reference intensity. -/
noncomputable def scale_qualifies (reference : RefList) (cr : Crystal)
    (refl : Obs) : Prop :=
  MIN_PART_SCALE ≤ refl.partiality ∧
  5 * refl.esd_intensity ≤ refl.intensity ∧
  (reference (refl.h, refl.k, refl.l)).present ∧
  0 < refl.intensity / (refl.partiality * refl.lorentz) ∧
  0 < (reference (refl.h, refl.k, refl.l)).intensity

noncomputable instance (reference : RefList) (cr : Crystal) (refl : Obs) :
    Decidable (scale_qualifies reference cr refl) :=
  Classical.propDecidable _

/-- Fitting point produced by `run_scale_job` for a qualifying
observation: `x = s·s` and `y = ln((I/(p·L)) / I_ref)`. -/
noncomputable def scale_xy (reference : RefList) (cr : Crystal) (refl : Obs) :
    ℝ × ℝ :=
  (cr.res refl.h refl.k refl.l * cr.res refl.h refl.k refl.l,
   Real.log ((refl.intensity / (refl.partiality * refl.lorentz))
     / (reference (refl.h, refl.k, refl.l)).intensity))

/-! ## Concrete example inputs used by counterexamples and witnesses -/

/-- Crystal for claim C1: G = 1, B = 1, one observation of (1,2,3) with
I = 1, σ = 1, p = 1, L = 1 at resolution s = 2. -/
noncomputable def crystal_merge1 : Crystal :=
  { user_flag := 0, osf := 1, Bfac := 1, res := fun _ _ _ => 2,
    reflections :=
      [{ h := 1, k := 2, l := 3, intensity := 1, esd_intensity := 1,
         partiality := 1, lorentz := 1 }] }

/-- Crystal for claim C5: G = 2, B = 0, one observation of (1,2,3) with
I = 4, σ = 1, p = 1, L = 1 at resolution 0. -/
noncomputable def crystal_esd : Crystal :=
  { user_flag := 0, osf := 2, Bfac := 0, res := fun _ _ _ => 0,
    reflections :=
      [{ h := 1, k := 2, l := 3, intensity := 4, esd_intensity := 1,
         partiality := 1, lorentz := 1 }] }

/-- Crystal for claim C2: two observations (of (1,2,3) at s = 0 and of
(2,2,3) at s = 1), both with I = 100, σ = 1, p = 1/2, L = 1. -/
noncomputable def crystal_C2 : Crystal :=
  { user_flag := 0, osf := 1, Bfac := 0,
    res := fun hh _ _ => if hh = 1 then 0 else 1,
    reflections :=
      [{ h := 1, k := 2, l := 3, intensity := 100, esd_intensity := 1,
         partiality := 1/2, lorentz := 1 },
       { h := 2, k := 2, l := 3, intensity := 100, esd_intensity := 1,
         partiality := 1/2, lorentz := 1 }] }

/-- Reference list for claim C2: entries for (1,2,3) and (2,2,3), both
with merged intensity 1. -/
noncomputable def reference_C2 : RefList := fun key =>
  if key = (1, 2, 3) ∨ key = (2, 2, 3) then
    { present := true, intensity := 1, esd_intensity := 0,
      temp1 := 0, temp2 := 0, redundancy := 0 }
  else reflist_new key

/-- Crystal with scale factor 0 (and B = 0), for claim C4. -/
noncomputable def crystal_G0 : Crystal :=
  { user_flag := 0, osf := 0, Bfac := 0, res := fun _ _ _ => 0,
    reflections := [] }

/-- Unflagged crystal with scale factor 2, for claim C6. -/
noncomputable def crystal_G2 : Crystal :=
  { user_flag := 0, osf := 2, Bfac := 0, res := fun _ _ _ => 0,
    reflections := [] }

/-! # Theorems -/

/-! ## Facts about `gcdC` -/

theorem natAbs_tmod (a b : ℤ) : (a.tmod b).natAbs = a.natAbs % b.natAbs := by
  cases a <;> cases b <;>
    simp [Int.tmod, Int.natAbs_neg] <;> norm_cast

theorem natAbs_tmod_lt (a : ℤ) {b : ℤ} (hb : b ≠ 0) :
    (a.tmod b).natAbs < b.natAbs := by
  rw [natAbs_tmod]
  exact Nat.mod_lt _ (Int.natAbs_pos.mpr hb)

theorem gcdCAux_irrel : ∀ (f₁ f₂ : ℕ) (a b : ℤ), b.natAbs < f₁ → b.natAbs < f₂ →
    gcdCAux f₁ a b = gcdCAux f₂ a b := by
  intro f₁
  induction f₁ using Nat.strong_induction_on with
  | _ f₁ ih =>
    intro f₂ a b h₁ h₂
    match f₁, h₁ with
    | f₁' + 1, h₁ =>
      match f₂, h₂ with
      | f₂' + 1, h₂ =>
        simp only [gcdCAux]
        by_cases hb : b = 0
        · simp [hb]
        · simp only [hb, if_false]
          have hlt := natAbs_tmod_lt a hb
          exact ih f₁' (Nat.lt_succ_self _) f₂' b (a.tmod b)
            (Nat.lt_of_lt_of_le hlt (Nat.lt_succ_iff.mp h₁))
            (Nat.lt_of_lt_of_le hlt (Nat.lt_succ_iff.mp h₂))

theorem gcdC_zero (a : ℤ) : gcdC a 0 = a := by
  simp [gcdC, gcdCAux]

theorem gcdC_rec (a : ℤ) {b : ℤ} (hb : b ≠ 0) :
    gcdC a b = gcdC b (a.tmod b) := by
  unfold gcdC
  have : gcdCAux (b.natAbs + 1) a b = gcdCAux (b.natAbs) b (a.tmod b) := by
    simp only [gcdCAux, hb, if_false]
  rw [this]
  exact gcdCAux_irrel _ _ _ _
    (natAbs_tmod_lt a hb)
    (Nat.lt_succ_self _)

/-- The magnitude of `gcdC a b` is the ordinary gcd of the magnitudes. -/
theorem natAbs_gcdC (a b : ℤ) : (gcdC a b).natAbs = Nat.gcd a.natAbs b.natAbs := by
  generalize hfuel : b.natAbs = fb
  induction fb using Nat.strong_induction_on generalizing a b with
  | _ fb ih =>
    subst hfuel
    by_cases hb : b = 0
    · subst hb
      simp [gcdC_zero]
    · rw [gcdC_rec a hb]
      have hlt : (a.tmod b).natAbs < b.natAbs := natAbs_tmod_lt a hb
      rw [ih _ hlt b (a.tmod b) rfl, natAbs_tmod]
      rw [Nat.gcd_comm b.natAbs, ← Nat.gcd_rec, Nat.gcd_comm]

theorem gcdC_dvd_left (a b : ℤ) : gcdC a b ∣ a := by
  rw [← Int.natAbs_dvd_natAbs, natAbs_gcdC]
  exact Nat.gcd_dvd_left _ _

theorem gcdC_dvd_right (a b : ℤ) : gcdC a b ∣ b := by
  rw [← Int.natAbs_dvd_natAbs, natAbs_gcdC]
  exact Nat.gcd_dvd_right _ _

theorem gcdC_ne_zero {a b : ℤ} (hb : b ≠ 0) : gcdC a b ≠ 0 := by
  intro h
  have := natAbs_gcdC a b
  rw [h] at this
  simp only [Int.natAbs_zero] at this
  exact hb (Int.natAbs_eq_zero.mp (Nat.eq_zero_of_gcd_eq_zero_right this.symm))

/-! ## Canonical form produced by `squish` -/

/-- Whenever the incoming denominator is nonzero, `squish` produces the
canonical form: positive denominator, coprime entries. -/
theorem squish_canonical {r : Rational} (hden : r.den ≠ 0) :
    Canonical (squish r) := by
  unfold squish
  by_cases hnum : r.num = 0
  · rw [if_pos hnum]
    exact ⟨one_pos, by simp [hnum, Int.gcd]⟩
  · rw [if_neg hnum]
    set g := gcdC r.num r.den with hg
    have hgnz : g ≠ 0 := gcdC_ne_zero hden
    have hdl : g ∣ r.num := gcdC_dvd_left _ _
    have hdr : g ∣ r.den := gcdC_dvd_right _ _
    have hn : g * (r.num.tdiv g) = r.num := Int.mul_tdiv_cancel' hdl
    have hd : g * (r.den.tdiv g) = r.den := Int.mul_tdiv_cancel' hdr
    have hdnz : r.den.tdiv g ≠ 0 := by
      intro h0
      rw [h0, mul_zero] at hd
      exact hden hd.symm
    have hgN : g.natAbs = Nat.gcd r.num.natAbs r.den.natAbs := natAbs_gcdC _ _
    have hgNpos : 0 < Nat.gcd r.num.natAbs r.den.natAbs :=
      Nat.gcd_pos_of_pos_right _ (Int.natAbs_pos.mpr hden)
    have hnN : (r.num.tdiv g).natAbs = r.num.natAbs / g.natAbs := by
      have := congrArg Int.natAbs hn
      rw [Int.natAbs_mul] at this
      exact (Nat.div_eq_of_eq_mul_right (hgN ▸ hgNpos) this.symm).symm
    have hdN : (r.den.tdiv g).natAbs = r.den.natAbs / g.natAbs := by
      have := congrArg Int.natAbs hd
      rw [Int.natAbs_mul] at this
      exact (Nat.div_eq_of_eq_mul_right (hgN ▸ hgNpos) this.symm).symm
    have hcop : Nat.gcd (r.num.tdiv g).natAbs (r.den.tdiv g).natAbs = 1 := by
      rw [hnN, hdN, hgN]
      exact Nat.coprime_div_gcd_div_gcd hgNpos
    by_cases hneg : r.den.tdiv g < 0
    · rw [if_pos hneg]
      refine ⟨by simpa using hneg, ?_⟩
      simpa [Int.gcd, Int.natAbs_neg] using hcop
    · rw [if_neg hneg]
      refine ⟨lt_of_le_of_ne (not_lt.mp hneg) (Ne.symm hdnz), ?_⟩
      simpa [Int.gcd] using hcop

theorem rtnl_canonical {a d : ℤ} (h : d ≠ 0) : Canonical (rtnl a d) :=
  squish_canonical h

theorem rtnl_zero_canonical : Canonical rtnl_zero := by decide

theorem rtnl_mul_canonical {a b : Rational}
    (ha : Canonical a) (hb : Canonical b) : Canonical (rtnl_mul a b) :=
  squish_canonical (mul_ne_zero ha.1.ne' hb.1.ne')

theorem rtnl_add_canonical {a b : Rational}
    (ha : Canonical a) (hb : Canonical b) : Canonical (rtnl_add a b) :=
  squish_canonical (mul_ne_zero ha.1.ne' hb.1.ne')

theorem rtnl_sub_canonical {a b : Rational}
    (ha : Canonical a) (hb : Canonical b) : Canonical (rtnl_sub a b) :=
  squish_canonical (mul_ne_zero ha.1.ne' hb.1.ne')

theorem rtnl_div_canonical {a b : Rational}
    (ha : Canonical a) (hb : b.num ≠ 0) : Canonical (rtnl_div a b) :=
  squish_canonical (mul_ne_zero ha.1.ne' hb)

theorem rtnl_abs_canonical {a : Rational} (ha : Canonical a) :
    Canonical (rtnl_abs a) := by
  unfold rtnl_abs
  have hsq := squish_canonical ha.1.ne'
  by_cases hneg : (squish a).num < 0
  · rw [if_pos hneg]
    exact ⟨hsq.1, by simpa [Int.gcd, Int.natAbs_neg] using hsq.2⟩
  · rw [if_neg hneg]
    exact hsq

/-! ## Claim C9 -/

/-- C9: the claim says every arithmetic operation on rationals either
returns the exact mathematical result or detects the overflow of its
64-bit arithmetic and aborts.  The code is wrong: adding `2^62/1` to
itself wraps the unchecked numerator sum `2^62 + 2^62` to `-2^63`,
`check_overflow` never fires (the wrapped model returns `some`, not the
aborting `none`), and the returned value differs from the exact sum
`2^63/1` computed by the exact model. -/
theorem C9_overflow_undetected :
    rtnl_add_w { num := 2 ^ 62, den := 1 } { num := 2 ^ 62, den := 1 }
      = some { num := -(2 ^ 63), den := 1 } ∧
    rtnl_add { num := 2 ^ 62, den := 1 } { num := 2 ^ 62, den := 1 }
      = { num := 2 ^ 63, den := 1 } ∧
    ({ num := -(2 ^ 63), den := 1 } : Rational) ≠ { num := 2 ^ 63, den := 1 } := by
  refine ⟨by decide, by decide, by decide⟩

/-! ## Claim C10 -/

/-- C10: the claim says every rational returned by the library is in
canonical form (positive denominator, coprime entries, zero as `0/1`).
The code is wrong, because `squish()` passes its 64-bit fields through
`gcd(signed int, signed int)`, truncating them to 32 bits, and
`rtnl_div()` truncates the divisor's numerator through `signed int t`:
on the canonical operands `477218588/1` and `10/9`, `rtnl_add` forms
`4294967302/9`, every overflow check passes, the truncated
`gcd(6, 9) = 3` divides the pair down to `1431655767/3` — not coprime
(`1431655767 = 3 * 477218589`) and different from the exact sum
`4294967302/9` — and `rtnl_div(1/1, 2^32/1)` returns the stored
rational `1/0` (denominator not positive) although the divisor is a
nonzero integer, because `t = (int) 2^32 = 0`.  The exact model (no
narrowing) returns the canonical exact sum on the same operands. -/
theorem C10_int_narrowing_bug :
    Canonical a10 ∧ Canonical b10 ∧
    rtnl_add_c a10 b10 = some r10 ∧
    ¬ Canonical r10 ∧
    rtnl_add a10 b10 = exact10 ∧
    Canonical exact10 ∧
    r10 ≠ exact10 ∧
    big32.num ≠ 0 ∧
    rtnl_div_c one1 big32 = some oneover0 ∧
    ¬ Canonical oneover0 := by decide

/-! ## Claim C7 -/

/-- C7: the partiality derivative used in post-refinement is
`dp/dq = 6(q - q²)` with degree of penetration `q = (r + R)/(2R)`, so
`partiality_gradient` vanishes at both ends of the sweep: at `r = -R`
(where `q = 0`) and at `r = +R` (where `q = 1`), for every profile
radius `R > 0`. -/
theorem C7_gradient_vanishes (R : ℝ) (hR : 0 < R) :
    partiality_gradient (-R) R = 0 ∧ partiality_gradient R R = 0 := by
  have hR0 : R ≠ 0 := ne_of_gt hR
  constructor
  · simp [partiality_gradient]
  · have hq : (R + R) / (2 * R) = 1 := by
      field_simp
      ring
    simp [partiality_gradient, hq]

/-- Witness for C7 at profile radius 1. -/
theorem C7_witness :
    (0:ℝ) < 1 ∧ partiality_gradient (-1) 1 = 0 ∧ partiality_gradient 1 1 = 0 :=
  ⟨one_pos, (C7_gradient_vanishes 1 one_pos).1, (C7_gradient_vanishes 1 one_pos).2⟩

/-! ## Claim C3 -/

/-- C3 counterexample: the claim — that all of ASX..CSZ, DIV and R but a
single excluded parameter are refined (the refined indices being those
below the loop bound `NUM_PARAMS`) — is false: `NUM_PARAMS` is the
second enumerator, so ten of the eleven parameters are excluded, and no
choice of a single excluded parameter accounts for that. -/
theorem C3_counterexample : ¬ C3_claimed_behaviour := by
  rintro ⟨excl, hexcl⟩
  by_cases h2 : excl = REF_BSX
  · have := hexcl REF_CSX (by decide) (by rw [h2]; decide)
    exact absurd this (by decide)
  · have := hexcl REF_BSX (by decide) (fun he => h2 he.symm)
    exact absurd this (by decide)

/-- C3 (amended): a Gauss-Newton iteration of `pr_iterate` computes
gradients, accumulates normal equations and applies a solved shift
exactly for the parameter indices below `NUM_PARAMS`; since
`NUM_PARAMS` is the second enumerator, the only such index is
`REF_ASX`, and the other ten parameters (BSX..CSZ, DIV and the profile
radius R) are left at their nominal values, whatever the gradient
function and the Householder solver do. -/
theorem C3_only_asx_refined :
    claim_params.filter (fun p => p < NUM_PARAMS) = [REF_ASX] ∧
    ∀ (gradient : PRImage → ℕ → PRRefl → ℝ → ℝ)
      (hh_solve : (Fin NUM_PARAMS → Fin NUM_PARAMS → ℝ) →
        (Fin NUM_PARAMS → ℝ) → Fin NUM_PARAMS → ℝ)
      (full : RefList) (im : PRImage),
      ∃ sh : ℝ, pr_iterate gradient hh_solve full im
        = { im with asx := im.asx + sh } := by
  refine ⟨by decide, fun gradient hh_solve full im => ⟨_, rfl⟩⟩

/-! ## Claim C4 -/

/-- C4 counterexample: a crystal with `G = 0` (and `B = 0`) lies outside
the claim's interval `(0, 10]`, so the claim says it is rejected, but
`reject_outliers` tests `osf < 0.0`, not `osf ≤ 0.0`, and leaves the
crystal unflagged. -/
theorem C4_counterexample :
    claim_outlier crystal_G0 ∧
    reject_outliers [crystal_G0] = [crystal_G0] ∧
    crystal_G0.user_flag = 0 := by
  refine ⟨?_, ?_, rfl⟩
  · unfold claim_outlier
    left
    rintro ⟨h0, -⟩
    exact absurd h0 (by norm_num [crystal_G0])
  · norm_num [reject_outliers, crystal_G0]

/-- C4 (amended): after each scaling iteration, `reject_outliers` marks
a crystal rejected (user flag 1) exactly when its scale factor lies
outside `[0, 10]` — zero included in the allowed band — or its
temperature factor satisfies `|B| > 40e-20`; all other crystals pass
through unchanged (in particular they are not flagged by this step). -/
theorem C4_outlier_rule (crystals : List Crystal) :
    reject_outliers crystals = crystals.map fun cr =>
      if ¬(0 ≤ cr.osf ∧ cr.osf ≤ 10) ∨ 40e-20 < |cr.Bfac| then
        { cr with user_flag := 1 }
      else cr := by
  unfold reject_outliers
  congr 1
  funext cr
  have hiff : (cr.osf < 0 ∨ cr.osf > 10 ∨ cr.Bfac < -40e-20 ∨ cr.Bfac > 40e-20)
      ↔ (¬(0 ≤ cr.osf ∧ cr.osf ≤ 10) ∨ 40e-20 < |cr.Bfac|) := by
    rw [lt_abs, not_and_or, not_le, not_le]
    constructor
    · rintro (h | h | h | h)
      · exact Or.inl (Or.inl h)
      · exact Or.inl (Or.inr h)
      · exact Or.inr (Or.inr (by linarith))
      · exact Or.inr (Or.inl h)
    · rintro ((h | h) | (h | h))
      · exact Or.inl h
      · exact Or.inr (Or.inl h)
      · exact Or.inr (Or.inr (Or.inr h))
      · exact Or.inr (Or.inr (Or.inl (by linarith)))
  exact if_congr hiff rfl rfl

/-! ## Claim C6 -/

/-- C6: after the normalisation step of a scaling iteration, the
arithmetic mean of the scale factors over the crystals with user flag 0
is within `1e-6` of 1 (it equals 1 exactly), provided at least one
crystal is unflagged and the unflagged scale factors do not sum to
zero (otherwise the C code divides by zero). -/
theorem C6_mean_scale_one (crystals : List Crystal)
    (hne : crystals.filter (fun cr => cr.user_flag = 0) ≠ [])
    (hsum : ((crystals.filter fun cr => cr.user_flag = 0).map Crystal.osf).sum ≠ 0) :
    |(((normalise_scale_factors crystals).filter fun cr => cr.user_flag = 0).map
          Crystal.osf).sum
        / ((((normalise_scale_factors crystals).filter fun cr =>
              cr.user_flag = 0).length : ℝ)) - 1| ≤ 1e-6 := by
  have hlen : ((crystals.filter fun cr => cr.user_flag = 0).length : ℝ) ≠ 0 := by
    rw [Nat.cast_ne_zero]
    intro h0
    exact hne (List.length_eq_zero.mp h0)
  have key : (((normalise_scale_factors crystals).filter fun cr =>
          cr.user_flag = 0).map Crystal.osf).sum
        / ((((normalise_scale_factors crystals).filter fun cr =>
              cr.user_flag = 0).length : ℝ)) = 1 := by
    unfold normalise_scale_factors
    rw [List.filter_map, List.map_map, List.length_map]
    simp only [Function.comp_def, div_eq_mul_inv]
    rw [List.sum_map_mul_right]
    field_simp
  rw [key]
  norm_num

/-- Witness for C6 on a single unflagged crystal with G = 2. -/
theorem C6_witness :
    ([crystal_G2].filter (fun cr => cr.user_flag = 0) ≠ []) ∧
    ((([crystal_G2].filter fun cr => cr.user_flag = 0).map Crystal.osf).sum ≠ 0) ∧
    |(((normalise_scale_factors [crystal_G2]).filter fun cr =>
          cr.user_flag = 0).map Crystal.osf).sum
        / ((((normalise_scale_factors [crystal_G2]).filter fun cr =>
              cr.user_flag = 0).length : ℝ)) - 1| ≤ 1e-6 := by
  have h1 : ([crystal_G2].filter (fun cr => cr.user_flag = 0) ≠ []) := by
    simp [List.filter, crystal_G2]
  have h2 : ((([crystal_G2].filter fun cr => cr.user_flag = 0).map
      Crystal.osf).sum ≠ 0) := by
    norm_num [List.filter, crystal_G2]
  exact ⟨h1, h2, C6_mean_scale_one _ h1 h2⟩

/-! ## Claim C1 -/

/-- C1: on an unflagged crystal with G = 1, B = 1 and one observation
with I = 1, p = 1, L = 1 at resolution s = 2, the merger accumulates
`denominator = 1`, `redundancy = 1` and sets `I_full = exp 4`: the code
multiplies by `exp(2·B·res)` with `res = s`, not `exp(2·B·s²) = exp 8`
as the claim (and the scaler, which fits `ln` against `s²`) requires. -/
theorem C1_merge_exponent_bug :
    (lsq_intensities [crystal_merge1] (1, 2, 3)).intensity = Real.exp 4 ∧
    (lsq_intensities [crystal_merge1] (1, 2, 3)).temp2 = 1 ∧
    (lsq_intensities [crystal_merge1] (1, 2, 3)).redundancy = 1 ∧
    Real.exp 4 ≠ Real.exp (2 * 1 * 2 ^ 2) := by
  have heval : lsq_intensities [crystal_merge1] (1, 2, 3)
      = { present := true, intensity := Real.exp 4, esd_intensity := 0,
          temp1 := Real.exp 4, temp2 := 1, redundancy := 1 } := by
    simp only [lsq_intensities, List.foldl, run_merge_job, crystal_merge1,
      merge_one, MIN_PART_MERGE, reflist_new]
    norm_num [Function.update]
  refine ⟨by rw [heval], by rw [heval], by rw [heval], ?_⟩
  rw [Ne, Real.exp_eq_exp]
  norm_num

/-! ## Claim C5 -/

/-- C5: on an unflagged crystal with G = 2, B = 0 and one observation
with I = 4, p = 1, L = 1 merged to `I_full = 8`, the second pass stores
`σ = sqrt((4/(2·1·1) - 8)²)/1 = 6`: the code divides the observation by
`G` (and applies no B factor), where the claim's fully corrected
intensity `I·G·exp(2B·s²)/(p·L) = 8` would give `σ = 0`. -/
theorem C5_esd_formula_bug :
    (calculate_esds [crystal_esd] (lsq_intensities [crystal_esd]) 1
        (1, 2, 3)).esd_intensity = 6 ∧
    Real.sqrt ((4 * 2 * Real.exp (2 * 0 * 0 ^ 2) / (1 * 1) - 8) ^ 2) / 1 = 0 ∧
    (6 : ℝ) ≠ 0 := by
  have hfull_fn : lsq_intensities [crystal_esd]
      = (fun key => if key = ((1 : ℤ), (2 : ℤ), (3 : ℤ)) then
          { present := true, intensity := 8, esd_intensity := 0,
            temp1 := 8, temp2 := 1, redundancy := 1 }
        else reflist_new key) := by
    funext key
    by_cases hk : key = ((1 : ℤ), (2 : ℤ), (3 : ℤ))
    · subst hk
      simp only [lsq_intensities, List.foldl, run_merge_job, crystal_esd,
        merge_one, MIN_PART_MERGE, reflist_new]
      norm_num [Function.update]
    · simp only [lsq_intensities, List.foldl, run_merge_job, crystal_esd,
        merge_one, MIN_PART_MERGE]
      norm_num [Function.update, hk]
      simp [reflist_new]
  refine ⟨?_, ?_, by norm_num⟩
  · have heval : calculate_esds [crystal_esd] (lsq_intensities [crystal_esd]) 1
        (1, 2, 3)
        = { present := true, intensity := 8, esd_intensity := 6,
            temp1 := 36, temp2 := 0, redundancy := 1 } := by
      rw [hfull_fn]
      simp only [calculate_esds, List.foldl, run_esd_job, crystal_esd, esd_one,
        MIN_PART_MERGE]
      norm_num [Function.update]
      rw [show (36 : ℝ) = 6 ^ 2 by norm_num,
        Real.sqrt_sq (by norm_num : (0:ℝ) ≤ 6)]
    rw [heval]
  · rw [show (2 : ℝ) * 0 * 0 ^ 2 = 0 by ring, Real.exp_zero]
    norm_num

/-! ## Claim C2 -/

/-- Helper: the least-squares fit through two points with x = 0, 1 and a
common ordinate y has intercept y and slope 0. -/
theorem fit_wlinear_two_flat (y : ℝ) :
    fit_wlinear [(0, y), (1, y)] = some (y, 0) := by
  unfold fit_wlinear
  norm_num
  ring

/-- Helper: the fitting points `run_scale_job` extracts from
`crystal_C2` against `reference_C2`: both observations qualify and the
regressed ordinate is `ln(I/(p·L·I_ref)) = ln 200`, the partiality
dividing the intensity. -/
theorem C2_pts_eval :
    crystal_C2.reflections.filterMap (scale_point reference_C2 crystal_C2)
      = [(0, Real.log 200), (1, Real.log 200)] := by
  simp only [crystal_C2, reference_C2, scale_point, MIN_PART_SCALE,
    List.filterMap_cons, List.filterMap_nil]
  norm_num

/-- Helper: the claim's fitting points for the same crystal omit the
partiality, giving ordinate `ln 100`. -/
theorem C2_claim_pts_eval :
    crystal_C2.reflections.filterMap (claim_scale_point reference_C2 crystal_C2)
      = [(0, Real.log 100), (1, Real.log 100)] := by
  simp only [crystal_C2, reference_C2, claim_scale_point, MIN_PART_SCALE,
    List.filterMap_cons, List.filterMap_nil]
  norm_num

/-- Helper: on `crystal_C2`, `run_scale_job` fits intercept `ln 200` and
sets `G = 1/exp(ln 200) = 1/200`, `B = 0`. -/
theorem C2_code_eval :
    run_scale_job reference_C2 crystal_C2
      = { crystal_C2 with osf := 1 / 200, Bfac := 0 } := by
  unfold run_scale_job
  rw [if_neg (by norm_num [crystal_C2])]
  rw [C2_pts_eval]
  norm_num [fit_wlinear_two_flat (Real.log 200),
    Real.exp_log (by norm_num : (0:ℝ) < 200)]

/-- C2 counterexample: on `crystal_C2` (two qualifying observations
with p = 1/2, L = 1, I = 100 against reference intensities 1) the code
regresses `y = ln(I/(p·L·I_ref)) = ln 200` and sets `G = 1/200`,
whereas the claim's `y = ln(I/(L·I_ref)) = ln 100` would set
`G = exp(-c0) = 1/100`; the claim, as stated, is false on this
input. -/
theorem C2_counterexample : ¬ C2_claimed_behaviour reference_C2 crystal_C2 := by
  unfold C2_claimed_behaviour
  rw [C2_claim_pts_eval]
  rw [if_neg (by norm_num)]
  rintro ⟨c0, c1, hfit, heq⟩
  rw [fit_wlinear_two_flat] at hfit
  obtain ⟨hc0, hc1⟩ := Prod.mk.injEq .. ▸ Option.some.injEq .. ▸ hfit
  have hosf := congrArg Crystal.osf (C2_code_eval.symm.trans heq)
  have : (1 : ℝ) / 200 = Real.exp (-c0) := hosf
  rw [← hc0, Real.exp_neg, Real.exp_log (by norm_num : (0:ℝ) < 100)] at this
  norm_num at this

/-- C2 (amended): for every reference list and unflagged crystal,
`run_scale_job` selects exactly the observations with partiality at
least `MIN_PART_SCALE`, intensity at least `5σ` (signed, not absolute),
a present reference entry, positive corrected intensity `I/(p·L)` and
positive reference intensity, and regresses `y = ln(I/(p·L·I_ref))`
(the partiality included in the correction) against `x = s²`; if fewer
than two observations qualify, or the fit degenerates, the crystal is
flagged and G, B are not updated; otherwise `G = 1/exp(c0) = exp(-c0)`
and `B = -c1/2` from the fitted intercept and slope. -/
theorem C2_scaling_fit (reference : RefList) (cr : Crystal)
    (h0 : cr.user_flag = 0) :
    (∀ refl : Obs, scale_point reference cr refl
        = if scale_qualifies reference cr refl
          then some (scale_xy reference cr refl) else none) ∧
    ((cr.reflections.filterMap (scale_point reference cr)).length < 2 →
      run_scale_job reference cr = { cr with user_flag := 1 }) ∧
    (∀ c0 c1 : ℝ,
      2 ≤ (cr.reflections.filterMap (scale_point reference cr)).length →
      fit_wlinear (cr.reflections.filterMap (scale_point reference cr))
        = some (c0, c1) →
      run_scale_job reference cr
        = { cr with osf := Real.exp (-c0), Bfac := -c1 / 2 }) ∧
    (2 ≤ (cr.reflections.filterMap (scale_point reference cr)).length →
      fit_wlinear (cr.reflections.filterMap (scale_point reference cr)) = none →
      run_scale_job reference cr = { cr with user_flag := 1 }) := by
  refine ⟨?_, ?_, ?_, ?_⟩
  · intro refl
    dsimp only [scale_point]
    by_cases h1 : refl.partiality < MIN_PART_SCALE ∨
        refl.intensity < 5 * refl.esd_intensity
    · rw [if_pos h1]
      rcases h1 with h | h
      · rw [if_neg (fun hq => absurd hq.1 (not_le.mpr h))]
      · rw [if_neg (fun hq => absurd hq.2.1 (not_le.mpr h))]
    · rw [if_neg h1]
      push_neg at h1
      by_cases h2 : (reference (refl.h, refl.k, refl.l)).present = true
      · rw [if_pos h2]
        by_cases h3 : refl.intensity / (refl.partiality * refl.lorentz) ≤ 0 ∨
            (reference (refl.h, refl.k, refl.l)).intensity ≤ 0
        · rw [if_pos h3]
          rcases h3 with h | h
          · rw [if_neg (fun hq => absurd hq.2.2.2.1 (not_lt.mpr h))]
          · rw [if_neg (fun hq => absurd hq.2.2.2.2 (not_lt.mpr h))]
        · rw [if_neg h3]
          push_neg at h3
          rw [if_pos (show scale_qualifies reference cr refl from
            ⟨h1.1, h1.2, h2, h3.1, h3.2⟩)]
          rfl
      · rw [if_neg h2, if_neg (fun hq => absurd hq.2.2.1 h2)]
  · intro hlen
    unfold run_scale_job
    rw [if_neg (fun hne => hne h0)]
    dsimp only
    rw [if_pos hlen]
  · intro c0 c1 hlen hfit
    unfold run_scale_job
    rw [if_neg (fun hne => hne h0)]
    dsimp only
    rw [if_neg (not_lt.mpr hlen), hfit]
    rw [Real.exp_neg, ← one_div]
  · intro hlen hfit
    unfold run_scale_job
    rw [if_neg (fun hne => hne h0)]
    dsimp only
    rw [if_neg (not_lt.mpr hlen), hfit]

/-- Witness for C2 (amended) at the concrete reference and crystal. -/
theorem C2_witness :
    crystal_C2.user_flag = 0 ∧
    (∀ refl : Obs, scale_point reference_C2 crystal_C2 refl
        = if scale_qualifies reference_C2 crystal_C2 refl
          then some (scale_xy reference_C2 crystal_C2 refl) else none) :=
  ⟨rfl, (C2_scaling_fit reference_C2 crystal_C2 rfl).1⟩

/-! ## Claim C8: correctness of the Gaussian-elimination solver -/

theorem rtnl_mtx_mult_eq_mulVec (m : Matrix (Fin n) (Fin n) ℚ) (v : Fin n → ℚ) :
    rtnl_mtx_mult m v = m.mulVec v := rfl

/-- Specification of the pivot-search fold: starting from a state that
is either the zero start value or records a row at or below `hrow`
carrying its (nonzero) absolute value, the fold result is of the same
shape, never shrinks, and dominates `|cm i k|` for every visited row
`i ≥ hrow`. -/
theorem pivot_fold_spec (cm : Matrix (Fin n) (Fin n) ℚ) (hrow : ℕ) (k : Fin n)
    (L : List (Fin n)) (st0 r : Fin n × ℚ)
    (h0 : st0.2 = 0 ∨ (hrow ≤ (st0.1 : ℕ) ∧ st0.2 = |cm st0.1 k| ∧ st0.2 ≠ 0))
    (hrdef : r = L.foldl (fun (st : Fin n × ℚ) (i : Fin n) =>
      if hrow ≤ (i : ℕ) ∧ st.2 < |cm i k| then (i, |cm i k|) else st) st0) :
    (r.2 = 0 ∨ (hrow ≤ (r.1 : ℕ) ∧ r.2 = |cm r.1 k| ∧ r.2 ≠ 0)) ∧
    st0.2 ≤ r.2 ∧
    ∀ i ∈ L, hrow ≤ (i : ℕ) → |cm i k| ≤ r.2 := by
  induction L generalizing st0 with
  | nil =>
    subst hrdef
    exact ⟨h0, le_refl _, by simp⟩
  | cons a L ih =>
    have hnn0 : 0 ≤ st0.2 := by
      rcases h0 with h | ⟨-, h, -⟩
      · rw [h]
      · rw [h]; exact abs_nonneg _
    rw [List.foldl_cons] at hrdef
    by_cases ha : hrow ≤ (a : ℕ) ∧ st0.2 < |cm a k|
    · rw [if_pos ha] at hrdef
      have h1 : ((a, |cm a k|) : Fin n × ℚ).2 = 0 ∨
          (hrow ≤ ((a, |cm a k|).1 : ℕ) ∧
            ((a, |cm a k|) : Fin n × ℚ).2 = |cm (a, |cm a k|).1 k| ∧
            ((a, |cm a k|) : Fin n × ℚ).2 ≠ 0) :=
        Or.inr ⟨ha.1, rfl, ne_of_gt (lt_of_le_of_lt hnn0 ha.2)⟩
      obtain ⟨hr, hrmono, hrall⟩ := ih _ h1 hrdef
      refine ⟨hr, le_trans (le_of_lt ha.2) hrmono, ?_⟩
      intro i hi hhi
      rcases List.mem_cons.mp hi with rfl | hi'
      · exact le_trans (le_of_eq rfl) hrmono
      · exact hrall i hi' hhi
    · rw [if_neg ha] at hrdef
      obtain ⟨hr, hrmono, hrall⟩ := ih _ h0 hrdef
      refine ⟨hr, hrmono, ?_⟩
      intro i hi hhi
      rcases List.mem_cons.mp hi with rfl | hi'
      · have : ¬ st0.2 < |cm i k| := fun hlt => ha ⟨hhi, hlt⟩
        exact le_trans (not_lt.mp this) hrmono
      · exact hrall i hi' hhi

/-- When the pivot search comes back with `pval = 0`, every entry of
column `k` in the rows from `hrow` down is zero. -/
theorem pivot_search_zero {cm : Matrix (Fin n) (Fin n) ℚ} {hrow : ℕ} {k : Fin n}
    (hz : (pivot_search cm hrow k).2 = 0) :
    ∀ i : Fin n, hrow ≤ (i : ℕ) → cm i k = 0 := by
  intro i hi
  obtain ⟨-, -, hall⟩ :=
    pivot_fold_spec cm hrow k (List.finRange n)
      (⟨0, Nat.lt_of_le_of_lt (Nat.zero_le _) k.isLt⟩, 0)
      (pivot_search cm hrow k) (Or.inl rfl) rfl
  have h := hall i (List.mem_finRange i) hi
  rw [hz] at h
  exact abs_nonpos_iff.mp h

/-- When the pivot search comes back with `pval ≠ 0`, the recorded row
is at or below `hrow` and its entry in column `k` is nonzero. -/
theorem pivot_search_found {cm : Matrix (Fin n) (Fin n) ℚ} {hrow : ℕ} {k : Fin n}
    (hnz : (pivot_search cm hrow k).2 ≠ 0) :
    hrow ≤ ((pivot_search cm hrow k).1 : ℕ) ∧
    cm (pivot_search cm hrow k).1 k ≠ 0 := by
  obtain ⟨hp, -, -⟩ :=
    pivot_fold_spec cm hrow k (List.finRange n)
      (⟨0, Nat.lt_of_le_of_lt (Nat.zero_le _) k.isLt⟩, 0)
      (pivot_search cm hrow k) (Or.inl rfl) rfl
  rcases hp with h | ⟨h1, h2, h3⟩
  · exact absurd h hnz
  · exact ⟨h1, fun hc => h3 (by rw [h2, hc, abs_zero])⟩

/-- When all entries of the first `m+1` columns vanish from row `m`
down, the matrix has a nonzero kernel vector (the first `m+1` columns
are `m+1` vectors supported on `m` coordinates). -/
theorem exists_kernel_vec_of_lower_left_zero (cm : Matrix (Fin n) (Fin n) ℚ)
    (m : ℕ) (hm : m < n)
    (hz : ∀ i j : Fin n, (j : ℕ) ≤ m → m ≤ (i : ℕ) → cm i j = 0) :
    ∃ v : Fin n → ℚ, v ≠ 0 ∧ cm.mulVec v = 0 := by
  have hm1 : m + 1 ≤ n := hm
  have hdetB : (Matrix.of fun i j : Fin (m + 1) =>
      cm (Fin.castLE hm1 i) (Fin.castLE hm1 j)).det = 0 :=
    Matrix.det_eq_zero_of_row_eq_zero (Fin.last m)
      (fun j => hz _ _ (Nat.lt_succ_iff.mp j.isLt) (le_refl m))
  obtain ⟨u, hu0, huB⟩ := Matrix.exists_mulVec_eq_zero_iff.mpr hdetB
  refine ⟨fun j => if hj : (j : ℕ) < m + 1 then u ⟨(j : ℕ), hj⟩ else 0, ?_, ?_⟩
  · intro hv
    apply hu0
    funext j'
    have := congrFun hv (Fin.castLE hm1 j')
    simpa using this
  · have hsum : ∀ i : Fin n,
        cm.mulVec (fun j => if hj : (j : ℕ) < m + 1 then u ⟨(j : ℕ), hj⟩ else 0) i
          = ∑ j' : Fin (m + 1), cm i (Fin.castLE hm1 j') * u j' := by
      intro i
      unfold Matrix.mulVec Matrix.dotProduct
      rw [← Finset.sum_subset
        (Finset.subset_univ ((Finset.univ : Finset (Fin (m + 1))).map
          ⟨Fin.castLE hm1, Fin.castLE_injective hm1⟩))]
      · rw [Finset.sum_map]
        refine Finset.sum_congr rfl ?_
        intro j' _
        simp
      · intro j _ hj
        have hjge : ¬ (j : ℕ) < m + 1 := by
          intro hlt
          apply hj
          simp only [Finset.mem_map, Finset.mem_univ, Function.Embedding.coeFn_mk]
          exact ⟨⟨(j : ℕ), hlt⟩, trivial, Fin.ext rfl⟩
        simp only [dif_neg hjge, mul_zero]
    funext i
    rw [Pi.zero_apply, hsum]
    by_cases hi : (i : ℕ) < m + 1
    · have hii : Fin.castLE hm1 ⟨(i : ℕ), hi⟩ = i := Fin.ext rfl
      have hB' := congrFun huB ⟨(i : ℕ), hi⟩
      simp only [Matrix.mulVec, Matrix.dotProduct, Matrix.of_apply,
        Pi.zero_apply, hii] at hB'
      exact hB'
    · refine Finset.sum_eq_zero ?_
      intro j' _
      rw [hz _ _ (Nat.lt_succ_iff.mp j'.isLt)
        (le_trans (Nat.le_succ m) (not_lt.mp hi)), zero_mul]

/-- Elimination update of `rtnl_mtx_solve()` at the record level: if the
working matrix `cm1` (after the row swap) has a nonzero pivot at `(k,k)`,
zeros below the diagonal in the columns before `k`, nonzero earlier
pivots, a trivial kernel and a right-hand side tracking `cm1 · x`, then
subtracting `cm1 i k / cm1 k k` times row `k` from every row `i > k`
reestablishes the invariant with one more processed column. -/
theorem elim_record_invariant (x : Fin n → ℚ)
    (cm1 : Matrix (Fin n) (Fin n) ℚ) (vec1 : Fin n → ℚ) (k : Fin n)
    (cm2 : Matrix (Fin n) (Fin n) ℚ) (vec2 : Fin n → ℚ)
    (hcm2 : ∀ i j, cm2 i j =
      if k < i then cm1 i j - cm1 i k / cm1 k k * cm1 k j else cm1 i j)
    (hvec2 : ∀ i, vec2 i =
      if k < i then vec1 i - cm1 i k / cm1 k k * vec1 k else vec1 i)
    (hpiv : cm1 k k ≠ 0)
    (hzero1 : ∀ i j : Fin n, (j : ℕ) < (k : ℕ) → j < i → cm1 i j = 0)
    (hdiag1 : ∀ j : Fin n, (j : ℕ) < (k : ℕ) → cm1 j j ≠ 0)
    (hker1 : ∀ v : Fin n → ℚ, cm1.mulVec v = 0 → v = 0)
    (hvec1 : cm1.mulVec x = vec1) :
    elim_invariant x ((k : ℕ) + 1)
      { hrow := (k : ℕ) + 1, cm := cm2, vec := vec2 } := by
  have hmv2 : ∀ (w : Fin n → ℚ) (i : Fin n), cm2.mulVec w i =
      if k < i then cm1.mulVec w i - cm1 i k / cm1 k k * cm1.mulVec w k
      else cm1.mulVec w i := by
    intro w i
    simp only [Matrix.mulVec, Matrix.dotProduct, hcm2]
    by_cases hki : k < i
    · simp only [if_pos hki]
      rw [Finset.mul_sum, ← Finset.sum_sub_distrib]
      exact Finset.sum_congr rfl fun j _ => by ring
    · simp only [if_neg hki]
  refine ⟨rfl, ?_, ?_, ?_, ?_⟩
  · intro i j hj hij
    show cm2 i j = 0
    rw [hcm2]
    rcases Nat.lt_or_ge (j : ℕ) (k : ℕ) with hjm | hjm
    · by_cases hki : k < i
      · rw [if_pos hki, hzero1 i j hjm hij,
          hzero1 k j hjm (Fin.lt_def.mpr hjm), mul_zero, sub_zero]
      · rw [if_neg hki]
        exact hzero1 i j hjm hij
    · have hjk : j = k := Fin.ext (le_antisymm (Nat.lt_succ_iff.mp hj) hjm)
      subst hjk
      rw [if_pos hij, div_mul_cancel₀ _ hpiv, sub_self]
  · intro j hj
    show cm2 j j ≠ 0
    rw [hcm2]
    rcases Nat.lt_or_ge (j : ℕ) (k : ℕ) with hjm | hjm
    · rw [if_neg (fun hkj : k < j => absurd (Fin.lt_def.mp hkj) (by omega))]
      exact hdiag1 j hjm
    · have hjk : j = k := Fin.ext (le_antisymm (Nat.lt_succ_iff.mp hj) hjm)
      subst hjk
      rw [if_neg (lt_irrefl j)]
      exact hpiv
  · intro v hv
    have hv2 : cm2.mulVec v = 0 := hv
    apply hker1
    have hvk : cm1.mulVec v k = 0 := by
      have h := congrFun hv2 k
      rw [Pi.zero_apply, hmv2 v k, if_neg (lt_irrefl k)] at h
      exact h
    funext i
    rw [Pi.zero_apply]
    have h := congrFun hv2 i
    rw [Pi.zero_apply, hmv2 v i] at h
    by_cases hki : k < i
    · rw [if_pos hki, hvk, mul_zero, sub_zero] at h
      exact h
    · rw [if_neg hki] at h
      exact h
  · show cm2.mulVec x = vec2
    funext i
    rw [hmv2 x i, hvec2 i, hvec1]

/-- One elimination step preserves the loop invariant, advancing the
processed-column count by one; the pivot search always succeeds because
the working matrix has a trivial kernel. -/
theorem elim_step_invariant {x : Fin n → ℚ} {m : ℕ} {s : ElimState n}
    (hm : m < n) (hinv : elim_invariant x m s) :
    elim_invariant x (m + 1) (elim_step s ⟨m, hm⟩) := by
  obtain ⟨hh, hzero, hdiag, hker, hvec⟩ := hinv
  subst hh
  set k : Fin n := ⟨s.hrow, hm⟩ with hkdef
  have hpv : (pivot_search s.cm s.hrow k).2 ≠ 0 := by
    intro hz
    have hcol := pivot_search_zero hz
    obtain ⟨v, hv0, hvK⟩ := exists_kernel_vec_of_lower_left_zero s.cm s.hrow hm
      (by
        intro i j hj hi
        rcases Nat.lt_or_ge (j : ℕ) s.hrow with hjm | hjm
        · exact hzero i j hjm (Fin.lt_def.mpr (lt_of_lt_of_le hjm hi))
        · have hjk : j = k := Fin.ext (le_antisymm hj hjm)
          rw [hjk]
          exact hcol i hi)
    exact hv0 (hker v hvK)
  obtain ⟨hprow_ge, hprow_nz⟩ := pivot_search_found hpv
  set prow : Fin n := (pivot_search s.cm s.hrow k).1 with hprowdef
  have hfix : ∀ i : Fin n, (i : ℕ) < s.hrow → Equiv.swap k prow i = i := by
    intro i hi
    apply Equiv.swap_apply_of_ne_of_ne
    · intro he
      have hik : (i : ℕ) = s.hrow := by rw [he]
      omega
    · intro he
      rw [he] at hi
      exact absurd hprow_ge (not_le.mpr hi)
  have hge : ∀ i : Fin n, s.hrow ≤ (i : ℕ) →
      s.hrow ≤ ((Equiv.swap k prow i : Fin n) : ℕ) := by
    intro i hi
    by_cases hik : i = k
    · rw [hik, Equiv.swap_apply_left]
      exact hprow_ge
    · by_cases hip : i = prow
      · rw [hip, Equiv.swap_apply_right]
      · rw [Equiv.swap_apply_of_ne_of_ne hik hip]
        exact hi
  set cm1 : Matrix (Fin n) (Fin n) ℚ := swap_rows s.cm k prow with hcm1def
  have hpiv1 : cm1 k k ≠ 0 := by
    show s.cm (Equiv.swap k prow k) k ≠ 0
    rw [Equiv.swap_apply_left]
    exact hprow_nz
  have hzero1 : ∀ i j : Fin n, (j : ℕ) < s.hrow → j < i → cm1 i j = 0 := by
    intro i j hj hij
    show s.cm (Equiv.swap k prow i) j = 0
    rcases Nat.lt_or_ge (i : ℕ) s.hrow with hi | hi
    · rw [hfix i hi]
      exact hzero i j hj hij
    · exact hzero _ j hj (Fin.lt_def.mpr (lt_of_lt_of_le hj (hge i hi)))
  have hdiag1 : ∀ j : Fin n, (j : ℕ) < s.hrow → cm1 j j ≠ 0 := by
    intro j hj
    show s.cm (Equiv.swap k prow j) j ≠ 0
    rw [hfix j hj]
    exact hdiag j hj
  have hker1 : ∀ v : Fin n → ℚ, cm1.mulVec v = 0 → v = 0 := by
    intro v hv
    apply hker
    funext i
    have h := congrFun hv (Equiv.swap k prow i)
    rw [Pi.zero_apply] at h ⊢
    have hcomp : cm1.mulVec v (Equiv.swap k prow i) =
        s.cm.mulVec v (Equiv.swap k prow (Equiv.swap k prow i)) := rfl
    rw [hcomp, Equiv.swap_apply_self] at h
    exact h
  have hvec1 : cm1.mulVec x = swap_vec s.vec k prow := by
    funext i
    show s.cm.mulVec x (Equiv.swap k prow i) = s.vec (Equiv.swap k prow i)
    rw [hvec]
  simp only [elim_step]
  rw [dif_pos hm, if_neg hpv]
  exact elim_record_invariant x cm1 (swap_vec s.vec k prow) k _ _
    (fun i j => rfl) (fun i => rfl) hpiv1 hzero1 hdiag1 hker1 hvec1

/-- After the whole elimination fold of `rtnl_mtx_solve()` the invariant
holds with all `n` columns processed: the working matrix is upper
triangular with nonzero diagonal and the right-hand side equals the
working matrix applied to the solution of the original system. -/
theorem gauss_eliminate_invariant (A : Matrix (Fin n) (Fin n) ℚ)
    (x : Fin n → ℚ) (hker : ∀ v : Fin n → ℚ, A.mulVec v = 0 → v = 0) :
    elim_invariant x n (gauss_eliminate A (A.mulVec x)) := by
  have key : ∀ m, m ≤ n → elim_invariant x m
      (((List.finRange n).take m).foldl elim_step
        { hrow := 0, cm := A, vec := A.mulVec x }) := by
    intro m
    induction m with
    | zero =>
      intro _
      refine ⟨rfl, ?_, ?_, hker, rfl⟩
      · intro i j hj
        exact absurd hj (Nat.not_lt_zero _)
      · intro j hj
        exact absurd hj (Nat.not_lt_zero _)
    | succ m ih =>
      intro hm1
      have hm : m < n := hm1
      have hlen : m < (List.finRange n).length := by simpa using hm
      have hget : (List.finRange n)[m]? = some ⟨m, hm⟩ := by
        rw [List.getElem?_eq_getElem hlen]
        exact congrArg some (Fin.ext (by simp [List.getElem_finRange]))
      have htake : (List.finRange n).take (m + 1)
          = (List.finRange n).take m ++ [⟨m, hm⟩] := by
        rw [List.take_succ, hget]
        rfl
      rw [htake, List.foldl_append, List.foldl_cons, List.foldl_nil]
      exact elim_step_invariant hm (ih (le_of_lt hm))
  have h := key n (le_refl n)
  rw [List.take_of_length_le (by simp)] at h
  exact h

/-- Back-substitution of `rtnl_mtx_solve()` on an upper-triangular
matrix with nonzero diagonal recovers the exact solution when the
right-hand side is the matrix applied to that solution. -/
theorem back_substitute_eq (cm : Matrix (Fin n) (Fin n) ℚ) (x : Fin n → ℚ)
    (hzero : ∀ i j : Fin n, j < i → cm i j = 0)
    (hdiag : ∀ j : Fin n, cm j j ≠ 0) :
    back_substitute cm (cm.mulVec x) = x := by
  have key : ∀ d m, m + d = n → ∀ j : Fin n,
      (m ≤ (j : ℕ) →
        (((List.finRange n).drop m).foldr
          (fun i ans => backsub_step cm (cm.mulVec x) ans i) (fun _ => 0)) j
          = x j) ∧
      ((j : ℕ) < m →
        (((List.finRange n).drop m).foldr
          (fun i ans => backsub_step cm (cm.mulVec x) ans i) (fun _ => 0)) j
          = 0) := by
    intro d
    induction d with
    | zero =>
      intro m hm j
      have hmn : m = n := by omega
      subst hmn
      constructor
      · intro hj
        exact absurd j.isLt (not_lt.mpr hj)
      · intro hj
        rw [List.drop_eq_nil_of_le (by simp)]
        rfl
    | succ d ih =>
      intro m hm j
      have hmn : m < n := by omega
      have hlen : m < (List.finRange n).length := by simpa using hmn
      have hget : (List.finRange n)[m] = ⟨m, hmn⟩ :=
        Fin.ext (by simp [List.getElem_finRange])
      have hdrop : (List.finRange n).drop m
          = ⟨m, hmn⟩ :: (List.finRange n).drop (m + 1) := by
        rw [List.drop_eq_getElem_cons hlen, hget]
      rw [hdrop, List.foldr_cons]
      set ans : Fin n → ℚ := ((List.finRange n).drop (m + 1)).foldr
        (fun i a => backsub_step cm (cm.mulVec x) a i) (fun _ => 0) with hansdef
      have ih1 : ∀ j : Fin n, m + 1 ≤ (j : ℕ) → ans j = x j :=
        fun j hj => (ih (m + 1) (by omega) j).1 hj
      have ih2 : ∀ j : Fin n, (j : ℕ) < m + 1 → ans j = 0 :=
        fun j hj => (ih (m + 1) (by omega) j).2 hj
      have hsum : (∑ j ∈ Finset.univ.filter
            (fun j => (⟨m, hmn⟩ : Fin n) < j), cm ⟨m, hmn⟩ j * ans j)
          = ∑ j ∈ Finset.univ.filter
            (fun j => (⟨m, hmn⟩ : Fin n) < j), cm ⟨m, hmn⟩ j * x j := by
        refine Finset.sum_congr rfl ?_
        intro j hj
        rw [ih1 j (Fin.lt_def.mp (Finset.mem_filter.mp hj).2)]
      have hmv : cm.mulVec x ⟨m, hmn⟩
          = (∑ j ∈ Finset.univ.filter
              (fun j => (⟨m, hmn⟩ : Fin n) < j), cm ⟨m, hmn⟩ j * x j)
            + cm ⟨m, hmn⟩ ⟨m, hmn⟩ * x ⟨m, hmn⟩ := by
        have hsplit := Finset.sum_filter_add_sum_filter_not Finset.univ
          (fun j => (⟨m, hmn⟩ : Fin n) < j) (fun j => cm ⟨m, hmn⟩ j * x j)
        have hlow : (∑ j ∈ Finset.univ.filter
              (fun j => ¬ (⟨m, hmn⟩ : Fin n) < j), cm ⟨m, hmn⟩ j * x j)
            = cm ⟨m, hmn⟩ ⟨m, hmn⟩ * x ⟨m, hmn⟩ := by
          refine Finset.sum_eq_single_of_mem _ (by simp) ?_
          intro b hb hbne
          have hble : ¬ (⟨m, hmn⟩ : Fin n) < b := by
            simpa using (Finset.mem_filter.mp hb).2
          have hblt : b < (⟨m, hmn⟩ : Fin n) := lt_of_le_of_ne (not_lt.mp hble) hbne
          rw [hzero _ b hblt, zero_mul]
        calc cm.mulVec x ⟨m, hmn⟩ = ∑ j, cm ⟨m, hmn⟩ j * x j := rfl
          _ = _ := by rw [← hsplit, hlow]
      have hq : (cm.mulVec x ⟨m, hmn⟩ - ∑ j ∈ Finset.univ.filter
            (fun j => (⟨m, hmn⟩ : Fin n) < j), cm ⟨m, hmn⟩ j * ans j)
          / cm ⟨m, hmn⟩ ⟨m, hmn⟩ = x ⟨m, hmn⟩ := by
        rw [hsum, hmv, add_comm, add_sub_cancel_right]
        exact mul_div_cancel_left₀ _ (hdiag _)
      constructor
      · intro hj
        by_cases hji : j = ⟨m, hmn⟩
        · rw [hji]
          simp only [backsub_step, Function.update_same]
          exact hq
        · simp only [backsub_step, Function.update_noteq hji]
          refine ih1 j ?_
          have hne : (j : ℕ) ≠ m := fun hc => hji (Fin.ext hc)
          omega
      · intro hj
        have hji : j ≠ ⟨m, hmn⟩ := by
          intro hc
          have hv : (j : ℕ) = m := by rw [hc]
          omega
        simp only [backsub_step, Function.update_noteq hji]
        exact ih2 j (by omega)
  funext j
  have h := (key n 0 (by omega) j).1 (Nat.zero_le _)
  rw [List.drop_zero] at h
  show ((List.finRange n).reverse.foldl
    (fun ans i => backsub_step cm (cm.mulVec x) ans i) (fun _ => 0)) j = x j
  rw [List.foldl_reverse]
  exact h

/-- Benchmark for claim C8: over exact rational arithmetic the
algorithm of `rtnl_mtx_solve()` is correct — for every non-singular
square matrix `A` of rationals and every rational vector `x`, solving
the system with right-hand side `A·x` recovers `x` exactly.  This
isolates the C8 divergence entirely in the element operations' 32-bit
narrowing, not in the elimination/back-substitution algorithm. -/
theorem exact_solver_recovers (A : Matrix (Fin n) (Fin n) ℚ) (x : Fin n → ℚ)
    (hdet : A.det ≠ 0) :
    rtnl_mtx_solve A (rtnl_mtx_mult A x) = x := by
  have hker : ∀ v : Fin n → ℚ, A.mulVec v = 0 → v = 0 := by
    intro v hv
    by_contra hvne
    exact hdet (Matrix.exists_mulVec_eq_zero_iff.mp ⟨v, hvne, hv⟩)
  obtain ⟨hh, hzero, hdiag, hker2, hvec⟩ := gauss_eliminate_invariant A x hker
  show back_substitute (gauss_eliminate A (A.mulVec x)).cm
      (gauss_eliminate A (A.mulVec x)).vec = x
  rw [← hvec]
  exact back_substitute_eq _ x (fun i j hij => hzero i j j.isLt hij)
    (fun j => hdiag j j.isLt)

/-- C8: the claim says that for every non-singular square matrix of
rationals with integer entries the solver recovers the solution
exactly.  The code is wrong: `rtnl_div()` stores the divisor's 64-bit
numerator into a 32-bit `signed int t`, so on `A = [[2^31, 0], [0, 1]]`
(integer entries, determinant `2^31 ≠ 0`) and `x = (1, 1)` the
back-substitution divides `2^31/1` by `2^31/1` with the divisor's
numerator wrapped to `-2^31`, yielding `-1`: the C function returns 0
(success, modelled by `some`) with answer `(-1, 1)` instead of `x`.
Over exact element arithmetic the same algorithm recovers `x`
(`exact_solver_recovers`), so the divergence is exactly the narrowing. -/
theorem C8_solver_narrowing_bug :
    (∀ i j, ratq (A8 i j) = A8Q i j) ∧
    A8Q.det ≠ 0 ∧
    (∀ i j, (A8 i j).den = 1) ∧
    ((rtnl_mtx_mult_c A8 x8).bind
      (fun v => rtnl_mtx_solve_c A8 v)).map (fun a => (a 0, a 1))
      = some (ans8 0, ans8 1) ∧
    ans8 0 ≠ x8 0 ∧
    ratq (ans8 0) = -1 ∧
    ratq (x8 0) = 1 :=
  ⟨by intro i j; fin_cases i <;> fin_cases j <;> norm_num [ratq, A8, A8Q],
    by norm_num [A8Q, Matrix.det_fin_two], by decide, by decide,
    by decide, by norm_num [ratq, ans8], by norm_num [ratq, x8]⟩

end CrystFEL
